import Mathlib

/-!  Verification of the dndbots combat resolution engine.

Shallow embedding of `src/dndbots/dice.py`, `src/dndbots/rules.py` and
`src/dndbots/mechanics.py`.  Python `int` is modelled by `Int`, Python
`dict`s by insertion-ordered association lists, and object identity by an
explicit heap (`List Combatant`) addressed by allocation index, because
`MechanicsEngine.add_combatant` stores the *same* `Combatant` object in the
session roster and the persistent `pcs` registry.  The pseudo-random stream
produced by `random.randint` is passed in as explicit draw arguments.  -/

namespace DndBots

/-- Error taxonomy of the engine (spec section 7).  Each constructor marks a
Python `raise` site: `ValueError` / `RuntimeError` occurrences are mapped to
the spec names of the conditions they signal. -/
inductive MechError where
  | combatAlreadyActive
  | noActiveCombat
  | duplicateCombatant
  | combatantNotFound
  | invalidSaveCategory
  | invalidAbility
  | missingDamageDice
  | invalidFormat
  | invalidDice
  deriving DecidableEq, Repr

/-! ## Dice roller (`dice.py`) -/

/-- Result of `dice.parse_roll`: the `ParsedRoll` TypedDict. -/
structure ParsedRoll where
  dice : Int
  sides : Int
  modifier : Int
  deriving DecidableEq, Repr

/-- `dice.roll(dice, sides, modifier)`: sums one `random.randint(1, sides)`
draw per die and adds the modifier.  The RNG stream is the explicit `draws`
list (one entry per die actually drawn).  `random.randint(1, sides)` raises
`ValueError` when `sides < 1`; that call is reached iff at least one draw is
attempted, i.e. iff `dice >= 1`.  There is no other validation in the
source. -/
def roll (dice sides modifier : Int) (draws : List Int) : Except MechError Int :=
  if 1 ≤ dice ∧ sides < 1 then Except.error MechError.invalidDice
  else Except.ok (draws.sum + modifier)

/-- Value of a digit string, as Python `int()` computes it on `\d+`. -/
def digitsVal (cs : List Char) : Nat :=
  cs.foldl (fun a c => a * 10 + (c.toNat - 48)) 0

/-- `notation.lower().replace(" ", "")`: lowercase each character, then
delete every space character (only `' '` — Python `str.replace`, not a
whitespace strip).  `Char.toLower` is the ASCII fragment of `str.lower`;
for this pattern the two agree on acceptance over ASCII input, since only
`'D'` lowercases to a character the regex can match. -/
def normalize (s : String) : List Char :=
  (s.data.map Char.toLower).filter (fun c => c ≠ ' ')

/-- Python re's `$` anchor matches at the end of the string *or just
before one trailing newline*.  No piece of the dice pattern can match
`'\n'`, so `re.match(r"^...$", s)` succeeds iff the pattern body matches
`s` with one trailing newline removed (when present). -/
def chompNewline (cs : List Char) : List Char :=
  if cs.getLast? = some '\n' then cs.dropLast else cs

/-- The optional `([+-]\d+)?$` tail of the dice-notation regex: empty, or a
sign followed by one or more digits running to the end of the string. -/
def parseMod (m : List Char) : Option Int :=
  match m with
  | [] => some 0
  | c :: ms =>
    if (c = '+' ∨ c = '-') ∧ ms ≠ [] ∧ ms.all Char.isDigit then
      some (if c = '-' then -(digitsVal ms : Int) else (digitsVal ms : Int))
    else none

/-- Core of `dice.parse_roll` on the normalized character list: the regex
`^(\d*)d(\d+)([+-]\d+)?$` matched left to right (the match is deterministic
because `d`, `+`, `-` are not digits). -/
def parseRollCs (cs : List Char) : Except MechError ParsedRoll :=
  match cs.dropWhile Char.isDigit with
  | [] => Except.error MechError.invalidFormat
  | c :: rest =>
    if c = 'd' then
      if rest.takeWhile Char.isDigit = [] then Except.error MechError.invalidFormat
      else
        match parseMod (rest.dropWhile Char.isDigit) with
        | some m =>
          Except.ok ⟨if cs.takeWhile Char.isDigit = [] then 1
                       else (digitsVal (cs.takeWhile Char.isDigit) : Int),
                     (digitsVal (rest.takeWhile Char.isDigit) : Int), m⟩
        | none => Except.error MechError.invalidFormat
    else Except.error MechError.invalidFormat

/-- `dice.parse_roll(notation)`:
`re.match(r"^(\d*)d(\d+)([+-]\d+)?$", notation.lower().replace(" ", ""))`.
`Char.isDigit` models `\d` over ASCII input; over non-ASCII input Python's
`\d` and `int()` additionally admit Unicode decimal digits, whose exact set
depends on the interpreter's Unicode version, so the theorems below scope
their exactness statements to ASCII strings (`AsciiStr`), where this
embedding agrees with the source character for character. -/
def parse_roll (s : String) : Except MechError ParsedRoll :=
  parseRollCs (chompNewline (normalize s))

/-- The ASCII strings: the fragment of the input space on which
`Char.toLower` / `Char.isDigit` coincide with Python's `str.lower` /
regex `\d` / `int`. -/
def AsciiStr (s : String) : Prop := ∀ c ∈ s.data, c.toNat < 128

/-! Spec-side formulation of the grammar `[count]d<sides>[+|-modifier]`
(spec section 4.1 / 6), stated as a decomposition of the character list;
used only to compare `parse_roll` against the spec's words. -/

/-- Spec grammar for the optional modifier part. -/
def ModShape (m : List Char) : Prop :=
  m = [] ∨ ∃ ms, (m = '+' :: ms ∨ m = '-' :: ms) ∧ ms ≠ [] ∧ ∀ c ∈ ms, c.isDigit = true

/-- Spec grammar `[count]d<sides>[+|-modifier]` over a character list:
optional digits, the letter `d`, one or more digits, optional signed
integer modifier. -/
def GrammarShape (cs : List Char) : Prop :=
  ∃ a b m, cs = a ++ 'd' :: (b ++ m) ∧ (∀ c ∈ a, c.isDigit = true) ∧
    b ≠ [] ∧ (∀ c ∈ b, c.isDigit = true) ∧ ModShape m

/-- The (ASCII) whitespace characters of Python `str.isspace` /
`str.strip`: space, tab, newline, carriage return, vertical tab, form
feed. -/
def isPyWhitespace (c : Char) : Bool :=
  c == ' ' || c == '\t' || c == '\n' || c == '\x0d' || c == '\x0b' || c == '\x0c'

/-- The claim's reading of the input normalization — "after lowercasing
and stripping whitespace" — which removes *every* whitespace character,
not just spaces as the source's `replace(" ", "")` does.  Used only to
state and refute the claim as written. -/
def normalizeWS (s : String) : List Char :=
  (s.data.map Char.toLower).filter (fun c => !(isPyWhitespace c))

/-! ## List helper lemmas -/

theorem mem_takeWhile_pred {α : Type} {p : α → Bool} :
    ∀ (l : List α) (c : α), c ∈ l.takeWhile p → p c = true := by
  intro l
  induction l with
  | nil => intro c h; simp [List.takeWhile] at h
  | cons x xs ih =>
    intro c h
    rw [List.takeWhile_cons] at h
    by_cases hx : p x
    · rw [if_pos hx] at h
      rcases List.mem_cons.mp h with rfl | h2
      · exact hx
      · exact ih c h2
    · rw [if_neg hx] at h
      simp at h

theorem takeWhile_dropWhile_split {α : Type} {p : α → Bool} :
    ∀ (a tail : List α), (∀ c ∈ a, p c = true) →
      (∀ c t, tail = c :: t → p c = false) →
      (a ++ tail).takeWhile p = a ∧ (a ++ tail).dropWhile p = tail := by
  intro a
  induction a with
  | nil =>
    intro tail _ htail
    cases tail with
    | nil => simp
    | cons c t =>
      have hc : p c = false := htail c t rfl
      constructor
      · simp [List.takeWhile_cons, hc]
      · simp [List.dropWhile_cons, hc]
  | cons x xs ih =>
    intro tail ha htail
    have hx : p x = true := ha x (List.mem_cons_self x xs)
    have hxs : ∀ c ∈ xs, p c = true := fun c hc => ha c (List.mem_cons_of_mem x hc)
    obtain ⟨h1, h2⟩ := ih tail hxs htail
    constructor
    · simp only [List.cons_append, List.takeWhile_cons, hx, if_pos, h1]
    · simp only [List.cons_append, List.dropWhile_cons, hx, if_pos, h2]

theorem sum_le_length_mul (l : List Int) (b : Int) (h : ∀ d ∈ l, d ≤ b) :
    l.sum ≤ (l.length : Int) * b := by
  induction l with
  | nil => simp
  | cons x xs ih =>
    have hx := h x (List.mem_cons_self x xs)
    have hxs := ih (fun d hd => h d (List.mem_cons_of_mem x hd))
    simp only [List.sum_cons, List.length_cons]
    push_cast
    nlinarith [hx, hxs]

theorem length_mul_le_sum (l : List Int) (b : Int) (h : ∀ d ∈ l, b ≤ d) :
    (l.length : Int) * b ≤ l.sum := by
  induction l with
  | nil => simp
  | cons x xs ih =>
    have hx := h x (List.mem_cons_self x xs)
    have hxs := ih (fun d hd => h d (List.mem_cons_of_mem x hd))
    simp only [List.sum_cons, List.length_cons]
    push_cast
    nlinarith [hx, hxs]

/-! ## Dice lemmas -/

theorem parseMod_isSome_iff (m : List Char) : (parseMod m).isSome = true ↔ ModShape m := by
  cases m with
  | nil => simp [parseMod, ModShape]
  | cons c ms =>
    by_cases hcond : (c = '+' ∨ c = '-') ∧ ms ≠ [] ∧ ms.all Char.isDigit = true
    · rw [show parseMod (c :: ms) = some (if c = '-' then -(digitsVal ms : Int)
          else (digitsVal ms : Int)) from by rw [parseMod, if_pos hcond]]
      constructor
      · intro _
        obtain ⟨hsign, hne, hall⟩ := hcond
        refine Or.inr ⟨ms, ?_, hne, fun x hx => List.all_eq_true.mp hall x hx⟩
        rcases hsign with rfl | rfl
        · exact Or.inl rfl
        · exact Or.inr rfl
      · intro _; rfl
    · rw [show parseMod (c :: ms) = none from by rw [parseMod, if_neg hcond]]
      constructor
      · intro habs; exact absurd habs (by decide)
      · intro hshape
        exfalso
        apply hcond
        rcases hshape with habs | ⟨ms2, hms, hne, hall⟩
        · exact absurd habs (List.cons_ne_nil c ms)
        · rcases hms with h1 | h1
          · obtain ⟨rfl, rfl⟩ := List.cons.inj h1
            exact ⟨Or.inl rfl, hne, List.all_eq_true.mpr hall⟩
          · obtain ⟨rfl, rfl⟩ := List.cons.inj h1
            exact ⟨Or.inr rfl, hne, List.all_eq_true.mpr hall⟩

theorem parseRollCs_nil (cs : List Char) (hd : cs.dropWhile Char.isDigit = []) :
    parseRollCs cs = Except.error MechError.invalidFormat := by
  unfold parseRollCs
  rw [hd]

theorem parseRollCs_cons (cs : List Char) (c : Char) (rest : List Char)
    (hd : cs.dropWhile Char.isDigit = c :: rest) :
    parseRollCs cs =
      if c = 'd' then
        if rest.takeWhile Char.isDigit = [] then Except.error MechError.invalidFormat
        else
          match parseMod (rest.dropWhile Char.isDigit) with
          | some m =>
            Except.ok ⟨if cs.takeWhile Char.isDigit = [] then 1
                         else (digitsVal (cs.takeWhile Char.isDigit) : Int),
                       (digitsVal (rest.takeWhile Char.isDigit) : Int), m⟩
          | none => Except.error MechError.invalidFormat
      else Except.error MechError.invalidFormat := by
  unfold parseRollCs
  rw [hd]

theorem parseRollCs_ok_iff (cs : List Char) :
    (∃ p, parseRollCs cs = Except.ok p) ↔ GrammarShape cs := by
  constructor
  · rintro ⟨p, hp⟩
    rcases hd : cs.dropWhile Char.isDigit with _ | ⟨c, rest⟩
    · rw [parseRollCs_nil cs hd] at hp
      exact absurd hp (by simp)
    · rw [parseRollCs_cons cs c rest hd] at hp
      by_cases hc : c = 'd'
      · rw [if_pos hc] at hp
        by_cases hs : rest.takeWhile Char.isDigit = []
        · rw [if_pos hs] at hp
          exact absurd hp (by simp)
        · rw [if_neg hs] at hp
          rcases hm : parseMod (rest.dropWhile Char.isDigit) with _ | mv
          · rw [hm] at hp
            exact absurd hp (by simp)
          · subst hc
            refine ⟨cs.takeWhile Char.isDigit, rest.takeWhile Char.isDigit,
                    rest.dropWhile Char.isDigit, ?_, ?_, hs, ?_, ?_⟩
            · conv_rhs =>
                rw [List.takeWhile_append_dropWhile (p := Char.isDigit) (l := rest)]
              rw [← hd, List.takeWhile_append_dropWhile]
            · exact fun x hx => mem_takeWhile_pred cs x hx
            · exact fun x hx => mem_takeWhile_pred rest x hx
            · exact (parseMod_isSome_iff _).mp (by rw [hm]; rfl)
      · rw [if_neg hc] at hp
        exact absurd hp (by simp)
  · rintro ⟨a, b, m, rfl, ha, hb, hbd, hm⟩
    have hdnd : Char.isDigit 'd' = false := by decide
    have hsplit1 := takeWhile_dropWhile_split a ('d' :: (b ++ m)) ha
      (fun c t ht => by cases ht; exact hdnd)
    have hmhead : ∀ c t, m = c :: t → Char.isDigit c = false := by
      intro c t ht
      rcases hm with rfl | ⟨ms, hsgn, _, _⟩
      · cases ht
      · rcases hsgn with h1 | h1 <;> rw [h1] at ht <;> cases ht <;> decide
    have hsplit2 := takeWhile_dropWhile_split b m hbd hmhead
    have hmod : (parseMod m).isSome = true := (parseMod_isSome_iff m).mpr hm
    rcases hpm : parseMod m with _ | mv
    · rw [hpm] at hmod; simp at hmod
    · refine ⟨⟨if a = [] then 1 else (digitsVal a : Int), (digitsVal b : Int), mv⟩, ?_⟩
      rw [parseRollCs_cons _ 'd' (b ++ m) hsplit1.2, if_pos (rfl : ('d' : Char) = 'd'),
          hsplit2.1, hsplit2.2, hpm, if_neg hb, hsplit1.1]

theorem parseRollCs_not_ok (cs : List Char) (h : ¬ GrammarShape cs) :
    parseRollCs cs = Except.error MechError.invalidFormat := by
  have hno : ¬ ∃ p, parseRollCs cs = Except.ok p :=
    fun hex => h ((parseRollCs_ok_iff cs).mp hex)
  rcases hd : cs.dropWhile Char.isDigit with _ | ⟨c, rest⟩
  · exact parseRollCs_nil cs hd
  · rw [parseRollCs_cons cs c rest hd]
    by_cases hc : c = 'd'
    · rw [if_pos hc]
      by_cases hs : rest.takeWhile Char.isDigit = []
      · rw [if_pos hs]
      · rw [if_neg hs]
        rcases hm : parseMod (rest.dropWhile Char.isDigit) with _ | mv
        · rfl
        · exfalso
          apply hno
          exact ⟨⟨if cs.takeWhile Char.isDigit = [] then 1
                    else (digitsVal (cs.takeWhile Char.isDigit) : Int),
                  (digitsVal (rest.takeWhile Char.isDigit) : Int), mv⟩,
                 by rw [parseRollCs_cons cs c rest hd, if_pos hc, if_neg hs, hm]⟩
    · rw [if_neg hc]

theorem parseRollCs_nonneg (cs : List Char) (p : ParsedRoll)
    (h : parseRollCs cs = Except.ok p) : 0 ≤ p.dice ∧ 0 ≤ p.sides := by
  rcases hd : cs.dropWhile Char.isDigit with _ | ⟨c, rest⟩
  · rw [parseRollCs_nil cs hd] at h
    exact absurd h (by simp)
  · rw [parseRollCs_cons cs c rest hd] at h
    by_cases hc : c = 'd'
    · rw [if_pos hc] at h
      by_cases hs : rest.takeWhile Char.isDigit = []
      · rw [if_pos hs] at h
        exact absurd h (by simp)
      · rw [if_neg hs] at h
        rcases hm : parseMod (rest.dropWhile Char.isDigit) with _ | mv <;> rw [hm] at h
        · exact absurd h (by simp)
        · obtain rfl : ParsedRoll.mk (if cs.takeWhile Char.isDigit = [] then 1
                else (digitsVal (cs.takeWhile Char.isDigit) : Int))
                (digitsVal (rest.takeWhile Char.isDigit) : Int) mv = p :=
            Except.ok.inj h
          constructor
          · dsimp only
            split_ifs
            · norm_num
            · positivity
          · dsimp only
            positivity
    · rw [if_neg hc] at h
      exact absurd h (by simp)

/-! ## Rule tables (`rules.py`) -/

/-- Python `str.capitalize()`: first character uppercased, the rest
lowercased (ASCII model). -/
def pyCapitalize (s : String) : String :=
  match s.data with
  | [] => ""
  | c :: rest => String.mk (c.toUpper :: rest.map Char.toLower)

/-- `rules.get_saving_throw(char_class, level, save_type)`: the
`SAVING_THROWS` table.  The class name is capitalized and defaults to the
Fighter row when unrecognized; the level is clamped to `[1, 6]`; levels
1-3 and 4-6 share rows.  Raises `ValueError` (`InvalidSaveCategory`) for
a category outside the five tabulated ones. -/
def get_saving_throw (char_class : String) (level : Int) (save_type : String) :
    Except MechError Int :=
  let n := pyCapitalize char_class
  let clamped := max (min level 6) 1
  let low := clamped ≤ 3
  let row : Int × Int × Int × Int × Int :=
    if n = "Cleric" then
      (if low then (11, 12, 14, 16, 15) else (9, 10, 12, 14, 13))
    else if n = "Thief" ∨ n = "Magic-User" then
      (if low then (13, 14, 13, 16, 15) else (11, 12, 11, 14, 13))
    else
      (if low then (12, 13, 14, 15, 16) else (10, 11, 12, 13, 14))
  if save_type = "death_ray" then Except.ok row.1
  else if save_type = "wands" then Except.ok row.2.1
  else if save_type = "paralysis" then Except.ok row.2.2.1
  else if save_type = "breath" then Except.ok row.2.2.2.1
  else if save_type = "spells" then Except.ok row.2.2.2.2
  else Except.error MechError.invalidSaveCategory

/-! ## Data model (`mechanics.py`) -/

/-- `mechanics.Combatant`: one participant in an encounter.  Python sets
of condition tags are modelled as duplicate-free insertion-ordered lists. -/
structure Combatant where
  id : String
  name : String
  hp : Int
  hp_max : Int
  ac : Int
  thac0 : Int
  damage_dice : String
  char_class : String
  level : Int
  morale : Int
  conditions : List String
  is_pc : Bool
  deriving DecidableEq, Repr

/-- `mechanics.CombatState`.  The combatants dict is an insertion-ordered
association list from id to the *heap reference* of the combatant, so
Python object identity is explicit. -/
structure CombatState where
  combatants : List (String × Nat)
  initiative_order : List String
  current_turn : Option String
  round_number : Int
  combat_style : String
  deriving DecidableEq, Repr

/-- The mutable fields of a `MechanicsEngine` instance, plus the heap the
`Combatant` objects live in (a reference is an index; allocation appends). -/
structure EngineState where
  heap : List Combatant
  combat : Option CombatState
  pcs : List (String × Nat)
  deriving DecidableEq, Repr

/-- A freshly constructed `MechanicsEngine`. -/
def initState : EngineState := ⟨[], none, []⟩

/-- Python dict read: first (and only) binding of the key. -/
def lookupA (m : List (String × Nat)) (k : String) : Option Nat :=
  match m with
  | [] => none
  | (k2, v) :: rest => if k2 = k then some v else lookupA rest k

/-- Python dict write `m[k] = v`: replace the binding in place, or append. -/
def setA (m : List (String × Nat)) (k : String) (v : Nat) : List (String × Nat) :=
  match m with
  | [] => [(k, v)]
  | (k2, v2) :: rest => if k2 = k then (k, v) :: rest else (k2, v2) :: setA rest k v

/-- `mechanics.AttackResult`. -/
structure AttackResult where
  hit : Bool
  roll : Int
  needed : Int
  modifier : Int
  narrative : String
  deriving DecidableEq, Repr

/-- `mechanics.DamageResult`. -/
structure DamageResult where
  damage : Int
  target_hp : Int
  target_hp_max : Int
  status : String
  narrative : String
  deriving DecidableEq, Repr

/-- `mechanics.SaveResult`. -/
structure SaveResult where
  success : Bool
  roll : Int
  needed : Int
  modifier : Int
  narrative : String
  deriving DecidableEq, Repr

/-- `mechanics.CheckResult`. -/
structure CheckResult where
  success : Bool
  roll : Int
  needed : Int
  modifier : Int
  narrative : String
  deriving DecidableEq, Repr

/-- `mechanics.MoraleResult`. -/
structure MoraleResult where
  holds : Bool
  roll : Int
  needed : Int
  narrative : String
  deriving DecidableEq, Repr

/-- The summary dict returned by `end_combat`. -/
structure CombatSummary where
  rounds : Int
  combatants : Nat
  survivors : Nat
  casualties : Nat
  deriving DecidableEq, Repr

/-- `mechanics.CombatTrigger` (imported by `referee_tools.py` and
`tests/test_mechanics_triggers.py`; its definition is not in the
snapshot). -/
inductive CombatTrigger where
  | kill
  | overkill
  | crit_hit
  | crit_fail
  | clutch_save
  deriving DecidableEq, Repr

/-! ## Engine operations.  Each operation returns its Python result (or
the error it raises) *and* the engine state at the moment it returns or
raises, so that mutations made before an exception would be visible. -/

/-- `MechanicsEngine.start_combat(style)`. -/
def start_combat (style : String) (s : EngineState) :
    Except MechError Unit × EngineState :=
  match s.combat with
  | some _ => (Except.error MechError.combatAlreadyActive, s)
  | none =>
    (Except.ok (), { s with combat := some ⟨[], [], none, 1, style⟩ })

/-- `MechanicsEngine.add_combatant(...)`.  Returns the reference of the
created `Combatant` (Python returns the object itself); the same
reference is stored in the session roster and, for PCs, in the
persistent `pcs` registry. -/
def add_combatant (id name : String) (hp hp_max ac thac0 : Int)
    (damage_dice char_class : String) (level morale : Int) (is_pc : Bool)
    (s : EngineState) : Except MechError Nat × EngineState :=
  match s.combat with
  | none => (Except.error MechError.noActiveCombat, s)
  | some cs =>
    match lookupA cs.combatants id with
    | some _ => (Except.error MechError.duplicateCombatant, s)
    | none =>
      let r := s.heap.length
      let c : Combatant :=
        ⟨id, name, hp, hp_max, ac, thac0, damage_dice, char_class, level,
         morale, [], is_pc⟩
      (Except.ok r,
       { heap := s.heap ++ [c],
         combat := some { cs with combatants := cs.combatants ++ [(id, r)] },
         pcs := if is_pc then setA s.pcs id r else s.pcs })

/-- Number of roster members with `hp > 0` ("survivors"). -/
def survivorCount (heap : List Combatant) (roster : List (String × Nat)) : Nat :=
  (roster.filter (fun p => match heap[p.2]? with
    | some c => decide (0 < c.hp)
    | none => false)).length

/-- Number of roster members with `hp <= 0` ("casualties"). -/
def casualtyCount (heap : List Combatant) (roster : List (String × Nat)) : Nat :=
  (roster.filter (fun p => match heap[p.2]? with
    | some c => decide (c.hp ≤ 0)
    | none => false)).length

/-- One iteration of the PC-persisting loop of `end_combat`: if the
combatant is a PC, write its (shared) reference into the registry. -/
def persistStep (co : Option Combatant) (id : String) (r : Nat)
    (pcs : List (String × Nat)) : List (String × Nat) :=
  match co with
  | some c => if c.is_pc then setA pcs id r else pcs
  | none => pcs

/-- The PC-persisting loop of `end_combat` over the roster. -/
def persistPCs (heap : List Combatant) (roster : List (String × Nat))
    (pcs : List (String × Nat)) : List (String × Nat) :=
  match roster with
  | [] => pcs
  | (id, r) :: rest => persistPCs heap rest (persistStep heap[r]? id r pcs)

/-- `MechanicsEngine.end_combat()`. -/
def end_combat (s : EngineState) : Except MechError CombatSummary × EngineState :=
  match s.combat with
  | none => (Except.error MechError.noActiveCombat, s)
  | some cs =>
    (Except.ok ⟨cs.round_number, cs.combatants.length,
                survivorCount s.heap cs.combatants,
                casualtyCount s.heap cs.combatants⟩,
     { s with combat := none, pcs := persistPCs s.heap cs.combatants s.pcs })

/-- `MechanicsEngine.get_combatant(id)`: read-only, never fails. -/
def get_combatant (id : String) (s : EngineState) : Option Nat :=
  match s.combat with
  | none => none
  | some cs => lookupA cs.combatants id

/-- `MechanicsEngine.roll_attack(attacker, target, modifier)`.  `raw` is
the single `roll(1, 20, 0)` draw. -/
def roll_attack (attacker target : String) (modifier raw : Int)
    (s : EngineState) : Except MechError AttackResult × EngineState :=
  match s.combat with
  | none => (Except.error MechError.noActiveCombat, s)
  | some cs =>
    match lookupA cs.combatants attacker with
    | none => (Except.error MechError.combatantNotFound, s)
    | some ra =>
      match lookupA cs.combatants target with
      | none => (Except.error MechError.combatantNotFound, s)
      | some rt =>
        match s.heap[ra]?, s.heap[rt]? with
        | some ca, some ct =>
          let needed := ca.thac0 - ct.ac
          if raw = 1 then
            (Except.ok ⟨false, raw + modifier, needed, modifier,
              "Critical miss! The attack goes wide!"⟩, s)
          else if raw = 20 then
            (Except.ok ⟨true, raw + modifier, needed, modifier,
              "Critical hit! The strike finds its mark!"⟩, s)
          else
            (Except.ok ⟨decide (needed ≤ raw + modifier), raw + modifier, needed,
              modifier,
              if needed ≤ raw + modifier then "The attack strikes true!"
              else "The attack misses its target."⟩, s)
        | _, _ => (Except.error MechError.combatantNotFound, s)

/-- `MechanicsEngine.roll_damage(attacker, target, damage_dice, modifier)`.
`draws` is the `randint` stream consumed by the inner `dice.roll` call.
The Python comparison `hp > hp_max * 0.5` is exact halving on the integer
range in use, embedded as `hp_max < 2 * hp`. -/
def roll_damage (attacker target : String) (dnote : Option String)
    (modifier : Int) (draws : List Int) (s : EngineState) :
    Except MechError DamageResult × EngineState :=
  match s.combat with
  | none => (Except.error MechError.noActiveCombat, s)
  | some cs =>
    match lookupA cs.combatants attacker with
    | none => (Except.error MechError.combatantNotFound, s)
    | some ra =>
      match lookupA cs.combatants target with
      | none => (Except.error MechError.combatantNotFound, s)
      | some rt =>
        match s.heap[ra]?, s.heap[rt]? with
        | some ca, some ct =>
          let ds := match dnote with
            | some d => d
            | none => ca.damage_dice
          if ds = "" then (Except.error MechError.missingDamageDice, s)
          else
            match parse_roll ds with
            | Except.error _ => (Except.error MechError.invalidFormat, s)
            | Except.ok parsed =>
              match roll parsed.dice parsed.sides parsed.modifier draws with
              | Except.error e => (Except.error e, s)
              | Except.ok base =>
                let total := if base + modifier < 1 then 1 else base + modifier
                let newHp := ct.hp - total
                (Except.ok ⟨total, newHp, ct.hp_max,
                   if newHp ≤ 0 then "dead"
                   else if newHp = 1 then "critical"
                   else if ct.hp_max < 2 * newHp then "healthy"
                   else "wounded",
                   if newHp ≤ 0 then ct.name ++ " collapses!"
                   else if newHp = 1 then ct.name ++ " is barely standing!"
                   else if ct.hp_max < 2 * newHp then
                     "A glancing blow against " ++ ct.name ++ "!"
                   else "A solid hit against " ++ ct.name ++ "!"⟩,
                 { s with heap := s.heap.set rt { ct with hp := newHp } })
        | _, _ => (Except.error MechError.combatantNotFound, s)

/-- The five valid save categories of `roll_save`. -/
def valid_save_types : List String :=
  ["death_ray", "wands", "paralysis", "breath", "spells"]

/-- `MechanicsEngine.roll_save(target, save_type, modifier)`. -/
def roll_save (target save_type : String) (modifier raw : Int)
    (s : EngineState) : Except MechError SaveResult × EngineState :=
  match s.combat with
  | none => (Except.error MechError.noActiveCombat, s)
  | some cs =>
    match lookupA cs.combatants target with
    | none => (Except.error MechError.combatantNotFound, s)
    | some rt =>
      match s.heap[rt]? with
      | none => (Except.error MechError.combatantNotFound, s)
      | some ct =>
        if valid_save_types.contains save_type then
          match get_saving_throw ct.char_class ct.level save_type with
          | Except.error e => (Except.error e, s)
          | Except.ok needed =>
            if raw = 1 then
              (Except.ok ⟨false, raw + modifier, needed, modifier,
                ct.name ++ " succumbs to the effect!"⟩, s)
            else if raw = 20 then
              (Except.ok ⟨true, raw + modifier, needed, modifier,
                ct.name ++ " shrugs off the effect!"⟩, s)
            else
              (Except.ok ⟨decide (needed ≤ raw + modifier), raw + modifier,
                needed, modifier,
                if needed ≤ raw + modifier then ct.name ++ " resists the effect!"
                else ct.name ++ " fails to resist!"⟩, s)
        else (Except.error MechError.invalidSaveCategory, s)

/-- The six valid ability tags of `roll_ability_check`. -/
def valid_abilities : List String := ["str", "dex", "con", "int", "wis", "cha"]

/-- `MechanicsEngine.roll_ability_check(target, ability, difficulty,
modifier)`. -/
def roll_ability_check (target ability : String) (difficulty modifier raw : Int)
    (s : EngineState) : Except MechError CheckResult × EngineState :=
  match s.combat with
  | none => (Except.error MechError.noActiveCombat, s)
  | some cs =>
    match lookupA cs.combatants target with
    | none => (Except.error MechError.combatantNotFound, s)
    | some rt =>
      match s.heap[rt]? with
      | none => (Except.error MechError.combatantNotFound, s)
      | some ct =>
        if valid_abilities.contains ability then
          if raw = 1 then
            (Except.ok ⟨false, raw + modifier, difficulty, modifier,
              ct.name ++ " fumbles the " ++ ability ++ " check!"⟩, s)
          else if raw = 20 then
            (Except.ok ⟨true, raw + modifier, difficulty, modifier,
              ct.name ++ " succeeds brilliantly at the " ++ ability ++ " check!"⟩, s)
          else
            (Except.ok ⟨decide (difficulty ≤ raw + modifier), raw + modifier,
              difficulty, modifier,
              if difficulty ≤ raw + modifier then
                ct.name ++ " succeeds at the " ++ ability ++ " check!"
              else ct.name ++ " fails the " ++ ability ++ " check!"⟩, s)
        else (Except.error MechError.invalidAbility, s)

/-- `MechanicsEngine.roll_morale(target)`.  `d1`, `d2` are the two
`randint(1, 6)` draws consumed by the `roll(2, 6, 0)` call. -/
def roll_morale (target : String) (d1 d2 : Int) (s : EngineState) :
    Except MechError MoraleResult × EngineState :=
  match s.combat with
  | none => (Except.error MechError.noActiveCombat, s)
  | some cs =>
    match lookupA cs.combatants target with
    | none => (Except.error MechError.combatantNotFound, s)
    | some rt =>
      match s.heap[rt]? with
      | none => (Except.error MechError.combatantNotFound, s)
      | some ct =>
        match roll 2 6 0 [d1, d2] with
        | Except.error e => (Except.error e, s)
        | Except.ok mr =>
          (Except.ok ⟨decide (mr ≤ ct.morale), mr, ct.morale,
            if mr ≤ ct.morale then ct.name ++ " stands firm!"
            else ct.name ++ "\x27s nerve breaks!"⟩, s)

/-- `MechanicsEngine.add_condition(target, condition)`: set insert. -/
def add_condition (target tag : String) (s : EngineState) :
    Except MechError Unit × EngineState :=
  match s.combat with
  | none => (Except.error MechError.noActiveCombat, s)
  | some cs =>
    match lookupA cs.combatants target with
    | none => (Except.error MechError.combatantNotFound, s)
    | some rt =>
      match s.heap[rt]? with
      | none => (Except.error MechError.combatantNotFound, s)
      | some ct =>
        (Except.ok (),
         { s with heap := s.heap.set rt ({ ct with
             conditions := if ct.conditions.contains tag then ct.conditions
               else ct.conditions ++ [tag] }) })

/-- `MechanicsEngine.remove_condition(target, condition)`: set discard. -/
def remove_condition (target tag : String) (s : EngineState) :
    Except MechError Unit × EngineState :=
  match s.combat with
  | none => (Except.error MechError.noActiveCombat, s)
  | some cs =>
    match lookupA cs.combatants target with
    | none => (Except.error MechError.combatantNotFound, s)
    | some rt =>
      match s.heap[rt]? with
      | none => (Except.error MechError.combatantNotFound, s)
      | some ct =>
        (Except.ok (),
         { s with heap := s.heap.set rt ({ ct with
             conditions := ct.conditions.filter (fun c => c ≠ tag) }) })

/-- `MechanicsEngine.get_conditions(target)`. -/
def get_conditions (target : String) (s : EngineState) :
    Except MechError (List String) × EngineState :=
  match s.combat with
  | none => (Except.error MechError.noActiveCombat, s)
  | some cs =>
    match lookupA cs.combatants target with
    | none => (Except.error MechError.combatantNotFound, s)
    | some rt =>
      match s.heap[rt]? with
      | none => (Except.error MechError.combatantNotFound, s)
      | some ct => (Except.ok ct.conditions, s)

/-- Modelled from the spec: `apply_damage(target_id, amount, source_id)`
is absent from the `mechanics.py` snapshot (only its callers in
`referee_tools.py` and `tests/test_mechanics_triggers.py` survive).  Per
spec section 4.5 it records the combatant's hit points before the hit,
applies the damage, and yields `kill` if hit points crossed from `> 0` to
`<= 0`, plus `overkill` if additionally `amount >= 2 * pre_damage_hp`.
Returns the trigger list and the new hit points. -/
def apply_damage (target : String) (amount : Int) (source : String)
    (s : EngineState) : Except MechError (List CombatTrigger × Int) × EngineState :=
  match s.combat with
  | none => (Except.error MechError.noActiveCombat, s)
  | some cs =>
    match lookupA cs.combatants target with
    | none => (Except.error MechError.combatantNotFound, s)
    | some rt =>
      match s.heap[rt]? with
      | none => (Except.error MechError.combatantNotFound, s)
      | some ct =>
        let pre := ct.hp
        let post := pre - amount
        (Except.ok
          ((if 0 < pre ∧ post ≤ 0 then
              CombatTrigger.kill ::
                (if 2 * pre ≤ amount then [CombatTrigger.overkill] else [])
            else []), post),
         { s with heap := s.heap.set rt { ct with hp := post } })

/-! ## The operation alphabet, reachable states, and invariants -/

/-- One call to a public engine operation, with its arguments and the
RNG draws it consumes. -/
inductive Op where
  | opStart (style : String)
  | opAdd (id name : String) (hp hp_max ac thac0 : Int) (damage_dice char_class : String)
      (level morale : Int) (is_pc : Bool)
  | opEnd
  | opGetCombatant (id : String)
  | opAttack (attacker target : String) (modifier raw : Int)
  | opDamage (attacker target : String) (dnote : Option String) (modifier : Int)
      (draws : List Int)
  | opSave (target save_type : String) (modifier raw : Int)
  | opCheck (target ability : String) (difficulty modifier raw : Int)
  | opMorale (target : String) (d1 d2 : Int)
  | opAddCond (target tag : String)
  | opRemoveCond (target tag : String)
  | opGetConds (target : String)
  | opApplyDamage (target : String) (amount : Int) (source : String)

/-- The error component of an operation outcome. -/
def errOf {α : Type} (r : Except MechError α) : Option MechError :=
  match r with
  | Except.ok _ => none
  | Except.error e => some e

/-- Run one operation: the error it raised (if any) and the state it
leaves behind. -/
def exec (o : Op) (s : EngineState) : Option MechError × EngineState :=
  match o with
  | Op.opStart style => ((start_combat style s).1 |> errOf, (start_combat style s).2)
  | Op.opAdd id name hp hp_max ac thac0 dd cc level morale is_pc =>
    ((add_combatant id name hp hp_max ac thac0 dd cc level morale is_pc s).1 |> errOf,
     (add_combatant id name hp hp_max ac thac0 dd cc level morale is_pc s).2)
  | Op.opEnd => ((end_combat s).1 |> errOf, (end_combat s).2)
  | Op.opGetCombatant _ => (none, s)
  | Op.opAttack a t m raw => ((roll_attack a t m raw s).1 |> errOf, (roll_attack a t m raw s).2)
  | Op.opDamage a t dn m draws =>
    ((roll_damage a t dn m draws s).1 |> errOf, (roll_damage a t dn m draws s).2)
  | Op.opSave t st m raw => ((roll_save t st m raw s).1 |> errOf, (roll_save t st m raw s).2)
  | Op.opCheck t ab d m raw =>
    ((roll_ability_check t ab d m raw s).1 |> errOf, (roll_ability_check t ab d m raw s).2)
  | Op.opMorale t d1 d2 => ((roll_morale t d1 d2 s).1 |> errOf, (roll_morale t d1 d2 s).2)
  | Op.opAddCond t tag => ((add_condition t tag s).1 |> errOf, (add_condition t tag s).2)
  | Op.opRemoveCond t tag => ((remove_condition t tag s).1 |> errOf, (remove_condition t tag s).2)
  | Op.opGetConds t => ((get_conditions t s).1 |> errOf, (get_conditions t s).2)
  | Op.opApplyDamage t amt src =>
    ((apply_damage t amt src s).1 |> errOf, (apply_damage t amt src s).2)

/-- Engine states produced from a fresh engine by some sequence of
operation calls. -/
inductive Reachable : EngineState → Prop where
  | init : Reachable initState
  | step (o : Op) (s : EngineState) : Reachable s → Reachable (exec o s).2

/-- The state invariant maintained by every operation: roster and
registry references are live heap indices; every registry reference
points at a PC record; roster ids are unique; and every PC in the roster
is registered under the *same* reference (Python: the same object). -/
def Inv (s : EngineState) : Prop :=
  (∀ cs, s.combat = some cs → ∀ p ∈ cs.combatants, p.2 < s.heap.length) ∧
  (∀ p ∈ s.pcs, p.2 < s.heap.length) ∧
  (∀ p ∈ s.pcs, ∀ c, s.heap[p.2]? = some c → c.is_pc = true) ∧
  (∀ cs, s.combat = some cs → (cs.combatants.map Prod.fst).Nodup) ∧
  (∀ cs, s.combat = some cs → ∀ id r c, lookupA cs.combatants id = some r →
    s.heap[r]? = some c → c.is_pc = true → lookupA s.pcs id = some r)

/-! ## Association-list lemmas -/

theorem lookupA_nil (k : String) : lookupA [] k = none := rfl

theorem lookupA_cons (k2 : String) (v : Nat) (rest : List (String × Nat)) (k : String) :
    lookupA ((k2, v) :: rest) k = if k2 = k then some v else lookupA rest k := rfl

theorem setA_nil (k : String) (v : Nat) : setA [] k v = [(k, v)] := rfl

theorem setA_cons (k2 : String) (v2 : Nat) (rest : List (String × Nat))
    (k : String) (v : Nat) :
    setA ((k2, v2) :: rest) k v =
      if k2 = k then (k, v) :: rest else (k2, v2) :: setA rest k v := rfl

theorem lookupA_mem : ∀ (m : List (String × Nat)) (k : String) (r : Nat),
    lookupA m k = some r → (k, r) ∈ m := by
  intro m
  induction m with
  | nil => intro k r h; simp [lookupA_nil] at h
  | cons p rest ih =>
    obtain ⟨k2, v⟩ := p
    intro k r h
    rw [lookupA_cons] at h
    by_cases he : k2 = k
    · rw [if_pos he] at h
      obtain rfl := Option.some.inj h
      subst he
      exact List.mem_cons_self _ _
    · rw [if_neg he] at h
      exact List.mem_cons_of_mem _ (ih k r h)

theorem lookupA_eq_none_imp : ∀ (m : List (String × Nat)) (k : String),
    lookupA m k = none → k ∉ m.map Prod.fst := by
  intro m
  induction m with
  | nil => intro k _ hk; simp at hk
  | cons p rest ih =>
    obtain ⟨k2, v⟩ := p
    intro k h hk
    rw [lookupA_cons] at h
    by_cases he : k2 = k
    · rw [if_pos he] at h
      exact Option.some_ne_none v h
    · rw [if_neg he] at h
      rcases List.mem_cons.mp hk with h2 | h2
      · exact he h2.symm
      · exact ih k h h2

theorem mem_setA : ∀ (m : List (String × Nat)) (k : String) (v : Nat) (p : String × Nat),
    p ∈ setA m k v → p ∈ m ∨ p = (k, v) := by
  intro m
  induction m with
  | nil => intro k v p hp; rw [setA_nil] at hp; simp at hp; exact Or.inr hp
  | cons q rest ih =>
    obtain ⟨k2, v2⟩ := q
    intro k v p hp
    rw [setA_cons] at hp
    by_cases he : k2 = k
    · rw [if_pos he] at hp
      rcases List.mem_cons.mp hp with h2 | h2
      · exact Or.inr h2
      · exact Or.inl (List.mem_cons_of_mem _ h2)
    · rw [if_neg he] at hp
      rcases List.mem_cons.mp hp with h2 | h2
      · exact Or.inl (h2 ▸ List.mem_cons_self _ _)
      · rcases ih k v p h2 with h3 | h3
        · exact Or.inl (List.mem_cons_of_mem _ h3)
        · exact Or.inr h3

theorem lookupA_setA_self : ∀ (m : List (String × Nat)) (k : String) (v : Nat),
    lookupA (setA m k v) k = some v := by
  intro m
  induction m with
  | nil => intro k v; rw [setA_nil, lookupA_cons, if_pos rfl]
  | cons q rest ih =>
    obtain ⟨k2, v2⟩ := q
    intro k v
    rw [setA_cons]
    by_cases he : k2 = k
    · rw [if_pos he, lookupA_cons, if_pos rfl]
    · rw [if_neg he, lookupA_cons, if_neg he]
      exact ih k v

theorem lookupA_setA_ne : ∀ (m : List (String × Nat)) (k k2 : String) (v : Nat),
    k2 ≠ k → lookupA (setA m k v) k2 = lookupA m k2 := by
  intro m
  induction m with
  | nil =>
    intro k k2 v hne
    rw [setA_nil, lookupA_cons, if_neg (fun h => hne h.symm), lookupA_nil]
  | cons q rest ih =>
    obtain ⟨k3, v3⟩ := q
    intro k k2 v hne
    rw [setA_cons]
    by_cases he : k3 = k
    · rw [if_pos he, lookupA_cons, if_neg (fun h => hne h.symm), lookupA_cons,
          if_neg (fun h => hne (he ▸ h).symm)]
    · rw [if_neg he, lookupA_cons, lookupA_cons]
      by_cases he2 : k3 = k2
      · rw [if_pos he2, if_pos he2]
      · rw [if_neg he2, if_neg he2]
        exact ih k k2 v hne

theorem lookupA_append_cases : ∀ (m m2 : List (String × Nat)) (k : String) (v : Nat),
    lookupA (m ++ m2) k = some v →
    lookupA m k = some v ∨ (lookupA m k = none ∧ lookupA m2 k = some v) := by
  intro m
  induction m with
  | nil => intro m2 k v h; exact Or.inr ⟨rfl, h⟩
  | cons q rest ih =>
    obtain ⟨k2, v2⟩ := q
    intro m2 k v h
    rw [List.cons_append, lookupA_cons] at h
    rw [lookupA_cons]
    by_cases he : k2 = k
    · rw [if_pos he] at h
      rw [if_pos he]
      exact Or.inl h
    · rw [if_neg he] at h
      rw [if_neg he]
      exact ih m2 k v h

theorem lookupA_append_left : ∀ (m m2 : List (String × Nat)) (k : String) (v : Nat),
    lookupA m k = some v → lookupA (m ++ m2) k = some v := by
  intro m
  induction m with
  | nil => intro m2 k v h; simp [lookupA_nil] at h
  | cons q rest ih =>
    obtain ⟨k2, v2⟩ := q
    intro m2 k v h
    rw [lookupA_cons] at h
    rw [List.cons_append, lookupA_cons]
    by_cases he : k2 = k
    · rw [if_pos he] at h
      rw [if_pos he]
      exact h
    · rw [if_neg he] at h
      rw [if_neg he]
      exact ih m2 k v h

theorem lookupA_append_none : ∀ (m m2 : List (String × Nat)) (k : String),
    lookupA m k = none → lookupA (m ++ m2) k = lookupA m2 k := by
  intro m
  induction m with
  | nil => intro m2 k _; rfl
  | cons q rest ih =>
    obtain ⟨k2, v2⟩ := q
    intro m2 k h
    rw [lookupA_cons] at h
    rw [List.cons_append, lookupA_cons]
    by_cases he : k2 = k
    · rw [if_pos he] at h
      cases h
    · rw [if_neg he] at h
      rw [if_neg he]
      exact ih m2 k h

theorem lookupA_single (k k2 : String) (v : Nat) (r : Nat)
    (h : lookupA [(k, v)] k2 = some r) : k2 = k ∧ r = v := by
  rw [lookupA_cons] at h
  by_cases he : k = k2
  · rw [if_pos he] at h
    exact ⟨he.symm, (Option.some.inj h).symm⟩
  · rw [if_neg he] at h
    simp [lookupA_nil] at h

/-! ## `persistPCs` lemmas -/

theorem persistPCs_nil (heap : List Combatant) (pcs : List (String × Nat)) :
    persistPCs heap [] pcs = pcs := rfl

theorem persistPCs_cons (heap : List Combatant) (id : String) (r : Nat)
    (rest pcs : List (String × Nat)) :
    persistPCs heap ((id, r) :: rest) pcs =
      persistPCs heap rest (persistStep heap[r]? id r pcs) := rfl

theorem mem_persistStep (co : Option Combatant) (id : String) (r : Nat)
    (pcs : List (String × Nat)) (p : String × Nat)
    (hp : p ∈ persistStep co id r pcs) :
    p ∈ pcs ∨ (p = (id, r) ∧ ∃ c, co = some c ∧ c.is_pc = true) := by
  cases co with
  | none => exact Or.inl hp
  | some c =>
    by_cases hpc : c.is_pc
    · rw [show persistStep (some c) id r pcs = setA pcs id r from by
        simp [persistStep, hpc]] at hp
      rcases mem_setA pcs id r p hp with h2 | h2
      · exact Or.inl h2
      · exact Or.inr ⟨h2, c, rfl, hpc⟩
    · rw [show persistStep (some c) id r pcs = pcs from by
        simp [persistStep, hpc]] at hp
      exact Or.inl hp

theorem lookupA_persistStep_ne (co : Option Combatant) (id : String) (r : Nat)
    (pcs : List (String × Nat)) (k : String) (hk : k ≠ id) :
    lookupA (persistStep co id r pcs) k = lookupA pcs k := by
  cases co with
  | none => rfl
  | some c =>
    by_cases hpc : c.is_pc
    · rw [show persistStep (some c) id r pcs = setA pcs id r from by
        simp [persistStep, hpc]]
      exact lookupA_setA_ne pcs id k r hk
    · rw [show persistStep (some c) id r pcs = pcs from by
        simp [persistStep, hpc]]

theorem mem_persistPCs (heap : List Combatant) :
    ∀ (roster pcs : List (String × Nat)) (p : String × Nat),
      p ∈ persistPCs heap roster pcs →
      p ∈ pcs ∨ (p ∈ roster ∧ ∃ c, heap[p.2]? = some c ∧ c.is_pc = true) := by
  intro roster
  induction roster with
  | nil => intro pcs p hp; exact Or.inl hp
  | cons q rest ih =>
    obtain ⟨id, r⟩ := q
    intro pcs p hp
    rw [persistPCs_cons] at hp
    rcases ih _ p hp with h2 | ⟨h2, h3⟩
    · rcases mem_persistStep heap[r]? id r pcs p h2 with h3 | ⟨rfl, c, hg, hpc⟩
      · exact Or.inl h3
      · exact Or.inr ⟨List.mem_cons_self _ _, c, hg, hpc⟩
    · exact Or.inr ⟨List.mem_cons_of_mem _ h2, h3⟩

theorem lookupA_persistPCs_not_mem (heap : List Combatant) :
    ∀ (roster pcs : List (String × Nat)) (id : String),
      id ∉ roster.map Prod.fst →
      lookupA (persistPCs heap roster pcs) id = lookupA pcs id := by
  intro roster
  induction roster with
  | nil => intro pcs id _; rfl
  | cons q rest ih =>
    obtain ⟨id0, r0⟩ := q
    intro pcs id hid
    have hid0 : id ≠ id0 := fun h => hid (by simp [h])
    have hidr : id ∉ rest.map Prod.fst := fun h => hid (by simp [h])
    rw [persistPCs_cons, ih _ id hidr, lookupA_persistStep_ne _ _ _ _ _ hid0]

theorem lookupA_persistPCs_pc (heap : List Combatant) :
    ∀ (roster pcs : List (String × Nat)) (id : String) (r : Nat) (c : Combatant),
      (roster.map Prod.fst).Nodup → (id, r) ∈ roster →
      heap[r]? = some c → c.is_pc = true →
      lookupA (persistPCs heap roster pcs) id = some r := by
  intro roster
  induction roster with
  | nil => intro pcs id r c _ hmem; simp at hmem
  | cons q rest ih =>
    obtain ⟨id0, r0⟩ := q
    intro pcs id r c hnd hmem hg hpc
    have hnd2 : id0 ∉ rest.map Prod.fst ∧ (rest.map Prod.fst).Nodup := by
      rw [List.map_cons] at hnd
      exact List.nodup_cons.mp hnd
    rcases List.mem_cons.mp hmem with heq | hmem2
    · obtain ⟨rfl, rfl⟩ := Prod.mk.inj heq
      rw [persistPCs_cons, lookupA_persistPCs_not_mem heap rest _ id hnd2.1]
      rw [show persistStep heap[r]? id r pcs = setA pcs id r from by
        rw [hg]; simp [persistStep, hpc]]
      exact lookupA_setA_self _ _ _
    · rw [persistPCs_cons]
      exact ih _ id r c hnd2.2 hmem2 hg hpc

/-! ## Operation state-shape lemmas: read-only operations return the state
unchanged; mutating operations either return it unchanged or succeed. -/

theorem errOf_eq_some {α : Type} (r : Except MechError α) (e : MechError)
    (h : errOf r = some e) : r = Except.error e := by
  cases r with
  | ok v => simp [errOf] at h
  | error e2 => simp only [errOf, Option.some.injEq] at h; rw [h]

theorem roll_attack_state (a t : String) (m raw : Int) (s : EngineState) :
    (roll_attack a t m raw s).2 = s := by
  unfold roll_attack
  repeat' split
  all_goals rfl

theorem roll_save_state (t st : String) (m raw : Int) (s : EngineState) :
    (roll_save t st m raw s).2 = s := by
  unfold roll_save
  repeat' split
  all_goals rfl

theorem roll_ability_check_state (t ab : String) (d m raw : Int) (s : EngineState) :
    (roll_ability_check t ab d m raw s).2 = s := by
  unfold roll_ability_check
  repeat' split
  all_goals rfl

theorem roll_morale_state (t : String) (d1 d2 : Int) (s : EngineState) :
    (roll_morale t d1 d2 s).2 = s := by
  unfold roll_morale
  repeat' split
  all_goals rfl

theorem get_conditions_state (t : String) (s : EngineState) :
    (get_conditions t s).2 = s := by
  unfold get_conditions
  repeat' split
  all_goals rfl

theorem start_combat_state (style : String) (s : EngineState) :
    (start_combat style s).2 = s ∨ ∃ v, (start_combat style s).1 = Except.ok v := by
  unfold start_combat
  split
  · exact Or.inl rfl
  · exact Or.inr ⟨_, rfl⟩

theorem add_combatant_state (id name : String) (hp hp_max ac thac0 : Int)
    (dd cc : String) (level morale : Int) (is_pc : Bool) (s : EngineState) :
    (add_combatant id name hp hp_max ac thac0 dd cc level morale is_pc s).2 = s ∨
    ∃ v, (add_combatant id name hp hp_max ac thac0 dd cc level morale is_pc s).1 =
      Except.ok v := by
  unfold add_combatant
  repeat' split
  all_goals first
    | exact Or.inl rfl
    | exact Or.inr ⟨_, rfl⟩

theorem end_combat_state (s : EngineState) :
    (end_combat s).2 = s ∨ ∃ v, (end_combat s).1 = Except.ok v := by
  unfold end_combat
  split
  · exact Or.inl rfl
  · exact Or.inr ⟨_, rfl⟩

theorem roll_damage_state (a t : String) (dn : Option String) (m : Int)
    (draws : List Int) (s : EngineState) :
    (roll_damage a t dn m draws s).2 = s ∨
    ∃ v, (roll_damage a t dn m draws s).1 = Except.ok v := by
  unfold roll_damage
  dsimp only
  repeat' split
  all_goals first
    | exact Or.inl rfl
    | exact Or.inr ⟨_, rfl⟩

theorem add_condition_state (t tag : String) (s : EngineState) :
    (add_condition t tag s).2 = s ∨ ∃ v, (add_condition t tag s).1 = Except.ok v := by
  unfold add_condition
  repeat' split
  all_goals first
    | exact Or.inl rfl
    | exact Or.inr ⟨_, rfl⟩

theorem remove_condition_state (t tag : String) (s : EngineState) :
    (remove_condition t tag s).2 = s ∨
    ∃ v, (remove_condition t tag s).1 = Except.ok v := by
  unfold remove_condition
  repeat' split
  all_goals first
    | exact Or.inl rfl
    | exact Or.inr ⟨_, rfl⟩

theorem apply_damage_state (t : String) (amt : Int) (src : String) (s : EngineState) :
    (apply_damage t amt src s).2 = s ∨
    ∃ v, (apply_damage t amt src s).1 = Except.ok v := by
  unfold apply_damage
  dsimp only
  repeat' split
  all_goals first
    | exact Or.inl rfl
    | exact Or.inr ⟨_, rfl⟩

/-! ## Invariant preservation -/

theorem getElem?_lt {α : Type} (l : List α) (i : Nat) (a : α)
    (h : l[i]? = some a) : i < l.length := by
  by_contra hlt
  rw [List.getElem?_eq_none (Nat.le_of_not_lt hlt)] at h
  cases h

theorem inv_heapSet (s : EngineState) (rt : Nat) (ct ct' : Combatant)
    (hg : s.heap[rt]? = some ct) (hpc : ct'.is_pc = ct.is_pc) (h : Inv s) :
    Inv { s with heap := s.heap.set rt ct' } := by
  obtain ⟨h1, h2, h3, h4, h5⟩ := h
  have hrt : rt < s.heap.length := getElem?_lt _ _ _ hg
  refine ⟨?_, ?_, ?_, h4, ?_⟩
  · intro cs hcs p hp
    show p.2 < (s.heap.set rt ct').length
    rw [List.length_set]
    exact h1 cs hcs p hp
  · intro p hp
    show p.2 < (s.heap.set rt ct').length
    rw [List.length_set]
    exact h2 p hp
  · intro p hp c hgc
    by_cases hpr : rt = p.2
    · subst hpr
      rw [List.getElem?_set_self hrt] at hgc
      obtain rfl := Option.some.inj hgc
      rw [hpc]
      exact h3 p hp ct hg
    · rw [List.getElem?_set_ne hpr] at hgc
      exact h3 p hp c hgc
  · intro cs hcs id r c hl hgc hpc2
    by_cases hpr : rt = r
    · subst hpr
      rw [List.getElem?_set_self hrt] at hgc
      obtain rfl := Option.some.inj hgc
      exact h5 cs hcs id rt ct hl hg (by rw [← hpc]; exact hpc2)
    · rw [List.getElem?_set_ne hpr] at hgc
      exact h5 cs hcs id r c hl hgc hpc2

theorem inv_start (style : String) (s : EngineState) (h : Inv s) :
    Inv (start_combat style s).2 := by
  obtain ⟨h1, h2, h3, h4, h5⟩ := h
  unfold start_combat
  rcases hc : s.combat with _ | cs
  · dsimp only
    refine ⟨?_, h2, h3, ?_, ?_⟩
    · intro cs2 hcs2 p hp
      obtain rfl := Option.some.inj hcs2
      simp at hp
    · intro cs2 hcs2
      obtain rfl := Option.some.inj hcs2
      simp
    · intro cs2 hcs2 id r c hl
      obtain rfl := Option.some.inj hcs2
      simp [lookupA_nil] at hl
  · exact ⟨h1, h2, h3, h4, h5⟩

theorem inv_add (id name : String) (hp hp_max ac thac0 : Int)
    (dd cc : String) (level morale : Int) (is_pc : Bool) (s : EngineState)
    (h : Inv s) :
    Inv (add_combatant id name hp hp_max ac thac0 dd cc level morale is_pc s).2 := by
  obtain ⟨h1, h2, h3, h4, h5⟩ := h
  unfold add_combatant
  rcases hc : s.combat with _ | cs
  · exact ⟨h1, h2, h3, h4, h5⟩
  · dsimp only
    rcases hl : lookupA cs.combatants id with _ | rDup
    · dsimp only
      have hlen : (s.heap ++ [(⟨id, name, hp, hp_max, ac, thac0, dd, cc, level,
          morale, [], is_pc⟩ : Combatant)]).length = s.heap.length + 1 := by
        rw [List.length_append]
        rfl
      refine ⟨?_, ?_, ?_, ?_, ?_⟩
      · intro cs2 hcs2 p hmem
        obtain rfl := Option.some.inj hcs2
        show p.2 < _
        rw [hlen]
        rcases List.mem_append.mp hmem with hm | hm
        · exact Nat.lt_succ_of_lt (h1 cs hc p hm)
        · obtain rfl : p = (id, s.heap.length) := by simpa using hm
          exact Nat.lt_succ_self _
      · intro p hmem
        show p.2 < _
        rw [hlen]
        by_cases hpc : is_pc = true
        · rw [if_pos hpc] at hmem
          rcases mem_setA _ _ _ _ hmem with hm | rfl
          · exact Nat.lt_succ_of_lt (h2 p hm)
          · exact Nat.lt_succ_self _
        · rw [if_neg hpc] at hmem
          exact Nat.lt_succ_of_lt (h2 p hmem)
      · intro p hmem c hgc
        by_cases hpnew : p.2 = s.heap.length
        · rw [hpnew, List.getElem?_concat_length] at hgc
          obtain rfl := Option.some.inj hgc
          by_cases hpc : is_pc = true
          · exact hpc
          · rw [if_neg hpc] at hmem
            exact absurd (hpnew ▸ h2 p hmem) (Nat.lt_irrefl _)
        · have hplt : p.2 < s.heap.length := by
            have := getElem?_lt _ _ _ hgc
            rw [hlen] at this
            omega
          rw [List.getElem?_append_left hplt] at hgc
          by_cases hpc : is_pc = true
          · rw [if_pos hpc] at hmem
            rcases mem_setA _ _ _ _ hmem with hm | rfl
            · exact h3 p hm c hgc
            · exact absurd rfl hpnew
          · rw [if_neg hpc] at hmem
            exact h3 p hmem c hgc
      · intro cs2 hcs2
        obtain rfl := Option.some.inj hcs2
        show ((cs.combatants ++ [(id, s.heap.length)]).map Prod.fst).Nodup
        rw [List.map_append]
        rw [List.nodup_append]
        refine ⟨h4 cs hc, by simp, ?_⟩
        intro x hx hx2
        have hx3 : x = id := by simpa using hx2
        rw [hx3] at hx
        exact lookupA_eq_none_imp cs.combatants id hl hx
      · intro cs2 hcs2 id2 r2 c2 hl2 hg2 hpc2
        obtain rfl := Option.some.inj hcs2
        rcases lookupA_append_cases _ _ _ _ hl2 with hfound | ⟨hnone, hsingle⟩
        · -- found in the old roster
          have hr2lt : r2 < s.heap.length := h1 cs hc (id2, r2) (lookupA_mem _ _ _ hfound)
          rw [List.getElem?_append_left hr2lt] at hg2
          have hold := h5 cs hc id2 r2 c2 hfound hg2 hpc2
          have hne : id2 ≠ id := by
            intro he
            rw [he, hl] at hfound
            cases hfound
          by_cases hpc : is_pc = true
          · rw [if_pos hpc, lookupA_setA_ne _ _ _ _ hne]
            exact hold
          · rw [if_neg hpc]
            exact hold
        · -- the freshly added entry
          obtain ⟨rfl, rfl⟩ := lookupA_single _ _ _ _ hsingle
          rw [List.getElem?_concat_length] at hg2
          obtain rfl := Option.some.inj hg2
          rw [if_pos hpc2]
          exact lookupA_setA_self _ _ _
    · exact ⟨h1, h2, h3, h4, h5⟩

theorem inv_end (s : EngineState) (h : Inv s) : Inv (end_combat s).2 := by
  obtain ⟨h1, h2, h3, h4, h5⟩ := h
  unfold end_combat
  rcases hc : s.combat with _ | cs
  · exact ⟨h1, h2, h3, h4, h5⟩
  · dsimp only
    refine ⟨?_, ?_, ?_, ?_, ?_⟩
    · intro cs2 hcs2
      exact absurd hcs2 (by simp)
    · intro p hmem
      rcases mem_persistPCs s.heap cs.combatants s.pcs p hmem with hm | ⟨hm, _⟩
      · exact h2 p hm
      · exact h1 cs hc p hm
    · intro p hmem c hg
      rcases mem_persistPCs s.heap cs.combatants s.pcs p hmem with hm | ⟨_, c1, hg1, hpc1⟩
      · exact h3 p hm c hg
      · rw [hg] at hg1
        obtain rfl := Option.some.inj hg1
        exact hpc1
    · intro cs2 hcs2
      exact absurd hcs2 (by simp)
    · intro cs2 hcs2
      exact absurd hcs2 (by simp)

theorem inv_roll_damage (a t : String) (dn : Option String) (m : Int)
    (draws : List Int) (s : EngineState) (h : Inv s) :
    Inv (roll_damage a t dn m draws s).2 := by
  unfold roll_damage
  rcases hc : s.combat with _ | cs
  · exact h
  · dsimp only
    rcases ha : lookupA cs.combatants a with _ | ra
    · exact h
    · dsimp only
      rcases ht : lookupA cs.combatants t with _ | rt
      · exact h
      · dsimp only
        rcases hga : s.heap[ra]? with _ | ca
        · exact h
        · rcases hgt : s.heap[rt]? with _ | ct
          · exact h
          · dsimp only
            split_ifs with hds
            · exact h
            · split
              · exact h
              · split
                · exact h
                · dsimp only
                  rw [← hc]
                  exact inv_heapSet s rt ct _ hgt rfl h

theorem inv_apply_damage (t : String) (amt : Int) (src : String) (s : EngineState)
    (h : Inv s) : Inv (apply_damage t amt src s).2 := by
  unfold apply_damage
  rcases hc : s.combat with _ | cs
  · exact h
  · dsimp only
    rcases ht : lookupA cs.combatants t with _ | rt
    · exact h
    · dsimp only
      rcases hgt : s.heap[rt]? with _ | ct
      · exact h
      · dsimp only
        rw [← hc]
        exact inv_heapSet s rt ct _ hgt rfl h

theorem inv_add_condition (t tag : String) (s : EngineState) (h : Inv s) :
    Inv (add_condition t tag s).2 := by
  unfold add_condition
  rcases hc : s.combat with _ | cs
  · exact h
  · dsimp only
    rcases ht : lookupA cs.combatants t with _ | rt
    · exact h
    · dsimp only
      rcases hgt : s.heap[rt]? with _ | ct
      · exact h
      · dsimp only
        rw [← hc]
        exact inv_heapSet s rt ct _ hgt rfl h

theorem inv_remove_condition (t tag : String) (s : EngineState) (h : Inv s) :
    Inv (remove_condition t tag s).2 := by
  unfold remove_condition
  rcases hc : s.combat with _ | cs
  · exact h
  · dsimp only
    rcases ht : lookupA cs.combatants t with _ | rt
    · exact h
    · dsimp only
      rcases hgt : s.heap[rt]? with _ | ct
      · exact h
      · dsimp only
        rw [← hc]
        exact inv_heapSet s rt ct _ hgt rfl h

theorem inv_initState : Inv initState := by
  refine ⟨?_, ?_, ?_, ?_, ?_⟩ <;> intros <;> simp_all [initState]

theorem inv_exec (o : Op) (s : EngineState) (h : Inv s) : Inv (exec o s).2 := by
  cases o with
  | opStart style => exact inv_start style s h
  | opAdd id name hp hp_max ac thac0 dd cc level morale is_pc =>
    exact inv_add id name hp hp_max ac thac0 dd cc level morale is_pc s h
  | opEnd => exact inv_end s h
  | opGetCombatant id => exact h
  | opAttack a t m raw =>
    show Inv (roll_attack a t m raw s).2
    rw [roll_attack_state]
    exact h
  | opDamage a t dn m draws => exact inv_roll_damage a t dn m draws s h
  | opSave t st m raw =>
    show Inv (roll_save t st m raw s).2
    rw [roll_save_state]
    exact h
  | opCheck t ab d m raw =>
    show Inv (roll_ability_check t ab d m raw s).2
    rw [roll_ability_check_state]
    exact h
  | opMorale t d1 d2 =>
    show Inv (roll_morale t d1 d2 s).2
    rw [roll_morale_state]
    exact h
  | opAddCond t tag => exact inv_add_condition t tag s h
  | opRemoveCond t tag => exact inv_remove_condition t tag s h
  | opGetConds t =>
    show Inv (get_conditions t s).2
    rw [get_conditions_state]
    exact h
  | opApplyDamage t amt src => exact inv_apply_damage t amt src s h

theorem inv_of_reachable (s : EngineState) (h : Reachable s) : Inv s := by
  induction h with
  | init => exact inv_initState
  | step o s2 _ ih => exact inv_exec o s2 ih

/-- `roll_save` pre-validates the category against the five tabulated
ones, so the table lookup it then performs cannot fail. -/
theorem get_saving_throw_ok (cc : String) (lvl : Int) (st : String)
    (hst : valid_save_types.contains st = true) :
    ∃ n, get_saving_throw cc lvl st = Except.ok n := by
  have hmem : st ∈ valid_save_types := by simpa using hst
  simp only [valid_save_types, List.mem_cons, List.not_mem_nil, or_false] at hmem
  unfold get_saving_throw
  rcases hmem with rfl | rfl | rfl | rfl | rfl
  · exact ⟨_, rfl⟩
  · exact ⟨_, rfl⟩
  · exact ⟨_, rfl⟩
  · exact ⟨_, rfl⟩
  · exact ⟨_, rfl⟩

/-! ## A small concrete encounter used by the witnesses -/

/-- A PC with 10 hit points. -/
def throk : Combatant :=
  ⟨"pc_throk", "Throk", 10, 10, 5, 18, "1d6", "fighter", 1, 7, [], true⟩

/-- An NPC with 4 hit points. -/
def goblin : Combatant :=
  ⟨"goblin_01", "Goblin", 4, 4, 6, 19, "1d6", "goblin", 1, 7, [], false⟩

/-- The session after `start_combat("soft")` and adding the two
combatants above. -/
def arenaCS : CombatState := ⟨[("pc_throk", 0), ("goblin_01", 1)], [], none, 1, "soft"⟩

/-- The engine state holding `arenaCS`. -/
def arena : EngineState := ⟨[throk, goblin], some arenaCS, [("pc_throk", 0)]⟩

/-- `arena` is produced by an actual call sequence on a fresh engine. -/
theorem arena_reachable : Reachable arena :=
  Reachable.step (Op.opAdd "goblin_01" "Goblin" 4 4 6 19 "1d6" "goblin" 1 7 false) _
    (Reachable.step (Op.opAdd "pc_throk" "Throk" 10 10 5 18 "1d6" "fighter" 1 7 true) _
      (Reachable.step (Op.opStart "soft") _ Reachable.init))

/-! ## Claim theorems -/

/-- C1: for every attack resolution in an active session with existing
attacker and target, a raw d20 draw of 1 misses and a raw draw of 20 hits
regardless of the caller-supplied modifier, otherwise the attack hits iff
`raw + modifier >= needed` with `needed = attacker.thac0 - target.ac`; the
reported roll always equals `raw + modifier`.  The same natural-1 /
natural-20 override holds for `roll_save` (against the table target) and
`roll_ability_check` (against the difficulty). -/
theorem natural_roll_overrides (s : EngineState) (cs : CombatState)
    (atk tgt : String) (ra rt : Nat) (ca ct : Combatant)
    (modifier raw : Int) (stype abil : String) (difficulty : Int)
    (hc : s.combat = some cs)
    (ha : lookupA cs.combatants atk = some ra)
    (ht : lookupA cs.combatants tgt = some rt)
    (hga : s.heap[ra]? = some ca) (hgt : s.heap[rt]? = some ct)
    (hst : valid_save_types.contains stype = true)
    (hab : valid_abilities.contains abil = true) :
    (∃ res : AttackResult, (roll_attack atk tgt modifier raw s).1 = Except.ok res ∧
      res.roll = raw + modifier ∧ res.modifier = modifier ∧
      res.needed = ca.thac0 - ct.ac ∧
      (raw = 1 → res.hit = false) ∧ (raw = 20 → res.hit = true) ∧
      (raw ≠ 1 → raw ≠ 20 → (res.hit = true ↔ ca.thac0 - ct.ac ≤ raw + modifier))) ∧
    (∃ res : SaveResult, (roll_save tgt stype modifier raw s).1 = Except.ok res ∧
      res.roll = raw + modifier ∧ res.modifier = modifier ∧
      (raw = 1 → res.success = false) ∧ (raw = 20 → res.success = true) ∧
      (raw ≠ 1 → raw ≠ 20 → (res.success = true ↔ res.needed ≤ raw + modifier))) ∧
    (∃ res : CheckResult, (roll_ability_check tgt abil difficulty modifier raw s).1 =
        Except.ok res ∧
      res.roll = raw + modifier ∧ res.modifier = modifier ∧ res.needed = difficulty ∧
      (raw = 1 → res.success = false) ∧ (raw = 20 → res.success = true) ∧
      (raw ≠ 1 → raw ≠ 20 → (res.success = true ↔ difficulty ≤ raw + modifier))) := by
  refine ⟨?_, ?_, ?_⟩
  · unfold roll_attack
    rw [hc]; dsimp only
    rw [ha]; dsimp only
    rw [ht]; dsimp only
    rw [hga, hgt]; dsimp only
    by_cases h1 : raw = 1
    · rw [if_pos h1]
      refine ⟨_, rfl, rfl, rfl, rfl, fun _ => rfl, ?_, ?_⟩
      · intro h20
        rw [h1] at h20
        exact absurd h20 (by decide)
      · intro hne _
        exact absurd h1 hne
    · rw [if_neg h1]
      by_cases h20 : raw = 20
      · rw [if_pos h20]
        refine ⟨_, rfl, rfl, rfl, rfl, fun h1x => absurd h1x h1, fun _ => rfl, ?_⟩
        intro _ hne20
        exact absurd h20 hne20
      · rw [if_neg h20]
        refine ⟨_, rfl, rfl, rfl, rfl, fun h1x => absurd h1x h1,
                fun h20x => absurd h20x h20, ?_⟩
        intro _ _
        exact decide_eq_true_iff
  · obtain ⟨n, hn⟩ := get_saving_throw_ok ct.char_class ct.level stype hst
    unfold roll_save
    rw [hc]; dsimp only
    rw [ht]; dsimp only
    rw [hgt]; dsimp only
    rw [if_pos hst, hn]; dsimp only
    by_cases h1 : raw = 1
    · rw [if_pos h1]
      refine ⟨_, rfl, rfl, rfl, fun _ => rfl, ?_, ?_⟩
      · intro h20
        rw [h1] at h20
        exact absurd h20 (by decide)
      · intro hne _
        exact absurd h1 hne
    · rw [if_neg h1]
      by_cases h20 : raw = 20
      · rw [if_pos h20]
        refine ⟨_, rfl, rfl, rfl, fun h1x => absurd h1x h1, fun _ => rfl, ?_⟩
        intro _ hne20
        exact absurd h20 hne20
      · rw [if_neg h20]
        refine ⟨_, rfl, rfl, rfl, fun h1x => absurd h1x h1,
                fun h20x => absurd h20x h20, ?_⟩
        intro _ _
        exact decide_eq_true_iff
  · unfold roll_ability_check
    rw [hc]; dsimp only
    rw [ht]; dsimp only
    rw [hgt]; dsimp only
    rw [if_pos hab]
    by_cases h1 : raw = 1
    · rw [if_pos h1]
      refine ⟨_, rfl, rfl, rfl, rfl, fun _ => rfl, ?_, ?_⟩
      · intro h20
        rw [h1] at h20
        exact absurd h20 (by decide)
      · intro hne _
        exact absurd h1 hne
    · rw [if_neg h1]
      by_cases h20 : raw = 20
      · rw [if_pos h20]
        refine ⟨_, rfl, rfl, rfl, rfl, fun h1x => absurd h1x h1, fun _ => rfl, ?_⟩
        intro _ hne20
        exact absurd h20 hne20
      · rw [if_neg h20]
        refine ⟨_, rfl, rfl, rfl, rfl, fun h1x => absurd h1x h1,
                fun h20x => absurd h20x h20, ?_⟩
        intro _ _
        exact decide_eq_true_iff

/-- C1, witnessed in the concrete `arena` encounter: Throk (thac0 18)
attacks the goblin (ac 6, so needed = 12) with modifier +2 on a raw 9:
the reported roll is 11 and the attack misses; the goblin's save against
spells and a str check at difficulty 10 are also resolved. -/
theorem natural_roll_overrides_witness :
    (∃ res : AttackResult, (roll_attack "pc_throk" "goblin_01" 2 9 arena).1 =
        Except.ok res ∧
      res.roll = 9 + 2 ∧ res.modifier = 2 ∧ res.needed = throk.thac0 - goblin.ac ∧
      ((9 : Int) = 1 → res.hit = false) ∧ ((9 : Int) = 20 → res.hit = true) ∧
      ((9 : Int) ≠ 1 → (9 : Int) ≠ 20 →
        (res.hit = true ↔ throk.thac0 - goblin.ac ≤ 9 + 2))) := by
  have h := natural_roll_overrides arena arenaCS "pc_throk" "goblin_01" 0 1
    throk goblin 2 9 "spells" "str" 10 rfl rfl rfl rfl rfl (by decide) (by decide)
  exact h.1

/-- C2: for every damage resolution in an active session with existing
attacker and target, when the effective notation (override, or the
attacker's default) parses and rolls to `base`, the applied total is
`base + modifier` floored at 1 (hence always at least 1); the target's
hit points are reduced by exactly that total with no floor at zero; and
the status is `dead` if the new hp <= 0, else `critical` if == 1, else
`healthy` if strictly more than half of hp_max, else `wounded`. -/
theorem roll_damage_spec (s : EngineState) (cs : CombatState)
    (atk tgt : String) (ra rt : Nat) (ca ct : Combatant)
    (dn : Option String) (modifier : Int) (draws : List Int)
    (ds : String) (parsed : ParsedRoll) (base : Int)
    (hc : s.combat = some cs)
    (ha : lookupA cs.combatants atk = some ra)
    (ht : lookupA cs.combatants tgt = some rt)
    (hga : s.heap[ra]? = some ca) (hgt : s.heap[rt]? = some ct)
    (hdn : (match dn with | some d => d | none => ca.damage_dice) = ds)
    (hne : ds ≠ "")
    (hparse : parse_roll ds = Except.ok parsed)
    (hroll : roll parsed.dice parsed.sides parsed.modifier draws = Except.ok base) :
    ∃ (res : DamageResult) (s2 : EngineState),
      roll_damage atk tgt dn modifier draws s = (Except.ok res, s2) ∧
      res.damage = (if base + modifier < 1 then 1 else base + modifier) ∧
      1 ≤ res.damage ∧
      res.target_hp = ct.hp - res.damage ∧
      res.target_hp_max = ct.hp_max ∧
      s2.heap[rt]? = some { ct with hp := ct.hp - res.damage } ∧
      s2.combat = s.combat ∧ s2.pcs = s.pcs ∧
      res.status = (if res.target_hp ≤ 0 then "dead"
        else if res.target_hp = 1 then "critical"
        else if ct.hp_max < 2 * res.target_hp then "healthy"
        else "wounded") := by
  have hrtlt : rt < s.heap.length := getElem?_lt _ _ _ hgt
  unfold roll_damage
  rw [hc]; dsimp only
  rw [ha]; dsimp only
  rw [ht]; dsimp only
  rw [hga, hgt]; dsimp only
  rw [hdn, if_neg hne, hparse]; dsimp only
  rw [hroll]; dsimp only
  refine ⟨_, _, rfl, rfl, ?_, rfl, rfl, ?_, ?_, rfl, rfl⟩
  · dsimp only
    split_ifs with hlt
    · norm_num
    · omega
  · rw [List.getElem?_set_self hrtlt]
  · rfl

/-- C2, witnessed in the concrete `arena` encounter: the goblin hits
Throk with its default `1d6`, draw 4, modifier -100: the total is floored
at 1 and Throk drops from 10 to 9 hit points (status `healthy`). -/
theorem roll_damage_spec_witness :
    ∃ (res : DamageResult) (s2 : EngineState),
      roll_damage "goblin_01" "pc_throk" none (-100) [4] arena = (Except.ok res, s2) ∧
      res.damage = (if (4 : Int) + -100 < 1 then 1 else 4 + -100) ∧
      1 ≤ res.damage ∧
      res.target_hp = throk.hp - res.damage ∧
      res.target_hp_max = throk.hp_max ∧
      s2.heap[0]? = some { throk with hp := throk.hp - res.damage } ∧
      s2.combat = arena.combat ∧ s2.pcs = arena.pcs ∧
      res.status = (if res.target_hp ≤ 0 then "dead"
        else if res.target_hp = 1 then "critical"
        else if throk.hp_max < 2 * res.target_hp then "healthy"
        else "wounded") :=
  roll_damage_spec arena arenaCS "goblin_01" "pc_throk" 1 0 goblin throk
    none (-100) [4] "1d6" ⟨1, 6, 0⟩ 4 rfl rfl rfl rfl rfl rfl (by decide)
    (by rfl) (by rw [roll, if_neg (by norm_num)]; rfl)

/-- C3: `apply_damage` (spec-modelled; absent from the `mechanics.py`
snapshot) records the pre-damage hit points, subtracts the amount, and
yields the `kill` trigger exactly when hp crossed from > 0 to <= 0 and
the `overkill` trigger exactly when `kill` fires and
`amount >= 2 * pre_damage_hp`. -/
theorem apply_damage_spec (s : EngineState) (cs : CombatState)
    (tgt : String) (rt : Nat) (ct : Combatant) (amount : Int) (src : String)
    (hc : s.combat = some cs)
    (ht : lookupA cs.combatants tgt = some rt)
    (hgt : s.heap[rt]? = some ct) :
    ∃ (trig : List CombatTrigger) (newHp : Int) (s2 : EngineState),
      apply_damage tgt amount src s = (Except.ok (trig, newHp), s2) ∧
      newHp = ct.hp - amount ∧
      s2.heap[rt]? = some { ct with hp := ct.hp - amount } ∧
      (CombatTrigger.kill ∈ trig ↔ (0 < ct.hp ∧ ct.hp - amount ≤ 0)) ∧
      (CombatTrigger.overkill ∈ trig ↔
        ((0 < ct.hp ∧ ct.hp - amount ≤ 0) ∧ 2 * ct.hp ≤ amount)) := by
  have hrtlt : rt < s.heap.length := getElem?_lt _ _ _ hgt
  unfold apply_damage
  rw [hc]; dsimp only
  rw [ht]; dsimp only
  rw [hgt]; dsimp only
  refine ⟨_, _, _, rfl, rfl, ?_, ?_, ?_⟩
  · rw [List.getElem?_set_self hrtlt]
  · split_ifs with hkill hover
    · constructor
      · intro _
        exact hkill
      · intro _
        exact List.mem_cons_self _ _
    · constructor
      · intro _
        exact hkill
      · intro _
        exact List.mem_cons_self _ _
    · constructor
      · intro habs
        exact absurd habs (List.not_mem_nil _)
      · intro hcond
        exact absurd hcond hkill
  · split_ifs with hkill hover
    · constructor
      · intro _
        exact ⟨hkill, hover⟩
      · intro _
        exact List.mem_cons_of_mem _ (List.mem_cons_self _ _)
    · constructor
      · intro hmem
        rcases List.mem_cons.mp hmem with heq | habs
        · exact absurd heq (by decide)
        · exact absurd habs (List.not_mem_nil _)
      · intro hcond
        exact absurd hcond.2 hover
    · constructor
      · intro habs
        exact absurd habs (List.not_mem_nil _)
      · intro hcond
        exact absurd hcond.1 hkill

/-- C3, witnessed in the concrete `arena` encounter: 10 points against
the goblin at 4 hp crosses to -6 and is at least twice the remaining hit
points, so both `kill` and `overkill` fire. -/
theorem apply_damage_spec_witness :
    ∃ (trig : List CombatTrigger) (newHp : Int) (s2 : EngineState),
      apply_damage "goblin_01" 10 "pc_throk" arena = (Except.ok (trig, newHp), s2) ∧
      newHp = goblin.hp - 10 ∧
      s2.heap[1]? = some { goblin with hp := goblin.hp - 10 } ∧
      (CombatTrigger.kill ∈ trig ↔ (0 < goblin.hp ∧ goblin.hp - 10 ≤ 0)) ∧
      (CombatTrigger.overkill ∈ trig ↔
        ((0 < goblin.hp ∧ goblin.hp - 10 ≤ 0) ∧ 2 * goblin.hp ≤ 10)) :=
  apply_damage_spec arena arenaCS "goblin_01" 1 goblin 10 "pc_throk" rfl rfl rfl

/-- C7: `roll_morale` for an existing combatant in an active session sums
two d6 draws, so with draws in `[1, 6]` the reported roll is in
`[2, 12]`; morale holds iff the roll is at most the combatant's morale
score (boundary included), with no natural-roll override. -/
theorem roll_morale_spec (s : EngineState) (cs : CombatState)
    (tgt : String) (rt : Nat) (ct : Combatant) (d1 d2 : Int)
    (hc : s.combat = some cs)
    (ht : lookupA cs.combatants tgt = some rt)
    (hgt : s.heap[rt]? = some ct)
    (hd1 : 1 ≤ d1 ∧ d1 ≤ 6) (hd2 : 1 ≤ d2 ∧ d2 ≤ 6) :
    ∃ res : MoraleResult, (roll_morale tgt d1 d2 s).1 = Except.ok res ∧
      res.roll = d1 + d2 ∧ 2 ≤ res.roll ∧ res.roll ≤ 12 ∧
      res.needed = ct.morale ∧
      (res.holds = true ↔ res.roll ≤ ct.morale) := by
  have hr : roll 2 6 0 [d1, d2] = Except.ok (d1 + d2) := by
    rw [roll, if_neg (by norm_num)]
    simp
  unfold roll_morale
  rw [hc]; dsimp only
  rw [ht]; dsimp only
  rw [hgt]; dsimp only
  rw [hr]; dsimp only
  refine ⟨_, rfl, rfl, ?_, ?_, rfl, decide_eq_true_iff⟩
  · dsimp only
    omega
  · dsimp only
    omega

/-- C7, witnessed in the concrete `arena` encounter: the goblin (morale
7) rolls 3 and 4, totalling exactly 7, so morale holds at the
boundary. -/
theorem roll_morale_spec_witness :
    ∃ res : MoraleResult, (roll_morale "goblin_01" 3 4 arena).1 = Except.ok res ∧
      res.roll = 3 + 4 ∧ 2 ≤ res.roll ∧ res.roll ≤ 12 ∧
      res.needed = goblin.morale ∧
      (res.holds = true ↔ res.roll ≤ goblin.morale) :=
  roll_morale_spec arena arenaCS "goblin_01" 1 goblin 3 4 rfl rfl rfl
    (by norm_num) (by norm_num)

/-- C5: the lifecycle is a two-state machine: `start_combat` fails with
`CombatAlreadyActive` iff a session is already active, otherwise it
transitions idle to active with an empty roster; `add_combatant` fails
with `NoActiveCombat` when idle, fails with `DuplicateCombatant` when the
id already exists, and otherwise appends exactly one roster entry under
that id, preserving key uniqueness. -/
theorem lifecycle_two_state (s : EngineState) (style id name : String)
    (hp hp_max ac thac0 : Int) (dd cc : String) (level morale : Int)
    (is_pc : Bool) :
    (s.combat ≠ none →
      start_combat style s = (Except.error MechError.combatAlreadyActive, s)) ∧
    (s.combat = none →
      start_combat style s =
        (Except.ok (), { s with combat := some ⟨[], [], none, 1, style⟩ })) ∧
    (s.combat = none →
      add_combatant id name hp hp_max ac thac0 dd cc level morale is_pc s =
        (Except.error MechError.noActiveCombat, s)) ∧
    (∀ cs, s.combat = some cs → (lookupA cs.combatants id).isSome = true →
      add_combatant id name hp hp_max ac thac0 dd cc level morale is_pc s =
        (Except.error MechError.duplicateCombatant, s)) ∧
    (∀ cs, s.combat = some cs → lookupA cs.combatants id = none →
      (add_combatant id name hp hp_max ac thac0 dd cc level morale is_pc s).1 =
        Except.ok s.heap.length ∧
      ∃ cs2, (add_combatant id name hp hp_max ac thac0 dd cc level morale
          is_pc s).2.combat = some cs2 ∧
        cs2.combatants = cs.combatants ++ [(id, s.heap.length)] ∧
        lookupA cs2.combatants id = some s.heap.length ∧
        ((cs.combatants.map Prod.fst).Nodup → (cs2.combatants.map Prod.fst).Nodup)) := by
  refine ⟨?_, ?_, ?_, ?_, ?_⟩
  · intro hne
    unfold start_combat
    rcases hcm : s.combat with _ | cs
    · exact absurd hcm hne
    · rfl
  · intro hcm
    unfold start_combat
    rw [hcm]
  · intro hcm
    unfold add_combatant
    rw [hcm]
  · intro cs hcm hsome
    unfold add_combatant
    rw [hcm]
    dsimp only
    rcases hl : lookupA cs.combatants id with _ | rDup
    · rw [hl] at hsome
      exact absurd hsome (by decide)
    · rfl
  · intro cs hcm hl
    unfold add_combatant
    rw [hcm]
    dsimp only
    rw [hl]
    refine ⟨rfl, _, rfl, rfl, ?_, ?_⟩
    · rw [lookupA_append_none _ _ _ hl, lookupA_cons, if_pos rfl]
    · intro hnd
      rw [List.map_append, List.nodup_append]
      refine ⟨hnd, by simp, ?_⟩
      intro x hx hx2
      have hx3 : x = id := by simpa using hx2
      rw [hx3] at hx
      exact lookupA_eq_none_imp cs.combatants id hl hx

/-- C5, witnessed on a fresh engine: starting combat succeeds, and adding
a combatant while idle fails with the no-active-combat error and leaves
the state untouched. -/
theorem lifecycle_two_state_witness :
    start_combat "soft" initState =
      (Except.ok (), { initState with combat := some ⟨[], [], none, 1, "soft"⟩ }) ∧
    add_combatant "goblin_01" "Goblin" 4 4 6 19 "1d6" "goblin" 1 7 false initState =
      (Except.error MechError.noActiveCombat, initState) := by
  constructor
  · exact (lifecycle_two_state initState "soft" "goblin_01" "Goblin" 4 4 6 19
      "1d6" "goblin" 1 7 false).2.1 rfl
  · exact (lifecycle_two_state initState "soft" "goblin_01" "Goblin" 4 4 6 19
      "1d6" "goblin" 1 7 false).2.2.1 rfl

/-- C6: every engine operation is atomic with respect to errors: whatever
the starting state, an operation that reports one of the defined errors
leaves the combat session and the persistent PC registry exactly as they
were. -/
theorem engine_ops_atomic_on_error (o : Op) (s : EngineState) (e : MechError)
    (h : (exec o s).1 = some e) : (exec o s).2 = s := by
  cases o with
  | opStart style =>
    show (start_combat style s).2 = s
    rcases start_combat_state style s with h2 | ⟨v, hv⟩
    · exact h2
    · have h3 : errOf (start_combat style s).1 = some e := h
      rw [hv] at h3
      simp [errOf] at h3
  | opAdd id name hp hp_max ac thac0 dd cc level morale is_pc =>
    show (add_combatant id name hp hp_max ac thac0 dd cc level morale is_pc s).2 = s
    rcases add_combatant_state id name hp hp_max ac thac0 dd cc level morale is_pc s
      with h2 | ⟨v, hv⟩
    · exact h2
    · have h3 : errOf (add_combatant id name hp hp_max ac thac0 dd cc level
          morale is_pc s).1 = some e := h
      rw [hv] at h3
      simp [errOf] at h3
  | opEnd =>
    show (end_combat s).2 = s
    rcases end_combat_state s with h2 | ⟨v, hv⟩
    · exact h2
    · have h3 : errOf (end_combat s).1 = some e := h
      rw [hv] at h3
      simp [errOf] at h3
  | opGetCombatant id => rfl
  | opAttack a t m raw => exact roll_attack_state a t m raw s
  | opDamage a t dn m draws =>
    show (roll_damage a t dn m draws s).2 = s
    rcases roll_damage_state a t dn m draws s with h2 | ⟨v, hv⟩
    · exact h2
    · have h3 : errOf (roll_damage a t dn m draws s).1 = some e := h
      rw [hv] at h3
      simp [errOf] at h3
  | opSave t st m raw => exact roll_save_state t st m raw s
  | opCheck t ab d m raw => exact roll_ability_check_state t ab d m raw s
  | opMorale t d1 d2 => exact roll_morale_state t d1 d2 s
  | opAddCond t tag =>
    show (add_condition t tag s).2 = s
    rcases add_condition_state t tag s with h2 | ⟨v, hv⟩
    · exact h2
    · have h3 : errOf (add_condition t tag s).1 = some e := h
      rw [hv] at h3
      simp [errOf] at h3
  | opRemoveCond t tag =>
    show (remove_condition t tag s).2 = s
    rcases remove_condition_state t tag s with h2 | ⟨v, hv⟩
    · exact h2
    · have h3 : errOf (remove_condition t tag s).1 = some e := h
      rw [hv] at h3
      simp [errOf] at h3
  | opGetConds t => exact get_conditions_state t s
  | opApplyDamage t amt src =>
    show (apply_damage t amt src s).2 = s
    rcases apply_damage_state t amt src s with h2 | ⟨v, hv⟩
    · exact h2
    · have h3 : errOf (apply_damage t amt src s).1 = some e := h
      rw [hv] at h3
      simp [errOf] at h3

/-- C6, witnessed on a fresh engine: `end_combat` while idle fails with
`NoActiveCombat` and leaves the state untouched. -/
theorem engine_ops_atomic_on_error_witness : (exec Op.opEnd initState).2 = initState :=
  engine_ops_atomic_on_error Op.opEnd initState MechError.noActiveCombat rfl

/-- C4: `end_combat` on an active session returns a summary with the
round count reached, the total number of combatants, the number with
hp > 0 (survivors) and the number with hp <= 0 (casualties); every PC in
the roster ends up in the persistent registry under its reference, whose
record carries the current hit points and conditions; afterwards the
engine is idle and everything reachable through the registry is PC state
(no NPC state remains reachable).  Called while idle it fails with
`NoActiveCombat`. -/
theorem end_combat_spec (s : EngineState) (hr : Reachable s) :
    (s.combat = none → end_combat s = (Except.error MechError.noActiveCombat, s)) ∧
    (∀ cs, s.combat = some cs →
      (end_combat s).1 = Except.ok ⟨cs.round_number, cs.combatants.length,
          survivorCount s.heap cs.combatants, casualtyCount s.heap cs.combatants⟩ ∧
      survivorCount s.heap cs.combatants = (cs.combatants.filter (fun p =>
        match s.heap[p.2]? with
        | some c => decide (0 < c.hp)
        | none => false)).length ∧
      casualtyCount s.heap cs.combatants = (cs.combatants.filter (fun p =>
        match s.heap[p.2]? with
        | some c => decide (c.hp ≤ 0)
        | none => false)).length ∧
      (end_combat s).2.combat = none ∧
      (∀ id r c, lookupA cs.combatants id = some r → s.heap[r]? = some c →
        c.is_pc = true →
        lookupA (end_combat s).2.pcs id = some r ∧
        (end_combat s).2.heap[r]? = some c) ∧
      (∀ p ∈ (end_combat s).2.pcs, ∀ c, (end_combat s).2.heap[p.2]? = some c →
        c.is_pc = true)) := by
  obtain ⟨h1, h2, h3, h4, h5⟩ := inv_of_reachable s hr
  refine ⟨?_, ?_⟩
  · intro hcm
    unfold end_combat
    rw [hcm]
  · intro cs hcm
    have hend : end_combat s = (Except.ok ⟨cs.round_number, cs.combatants.length,
        survivorCount s.heap cs.combatants, casualtyCount s.heap cs.combatants⟩,
      { s with combat := none, pcs := persistPCs s.heap cs.combatants s.pcs }) := by
      unfold end_combat
      rw [hcm]
    refine ⟨by rw [hend], rfl, rfl, by rw [hend], ?_, ?_⟩
    · intro id r c hl hg hpc
      rw [hend]
      exact ⟨lookupA_persistPCs_pc s.heap cs.combatants s.pcs id r c (h4 cs hcm)
        (lookupA_mem _ _ _ hl) hg hpc, hg⟩
    · intro p hp c hg
      have hinv2 := inv_end s ⟨h1, h2, h3, h4, h5⟩
      rw [hend] at hinv2 hp hg
      exact hinv2.2.2.1 p hp c hg

/-- C4, witnessed in the concrete `arena` encounter: ending combat
reports round 1, 2 combatants, 2 survivors, 0 casualties, goes idle, and
keeps Throk (the PC) registered under reference 0. -/
theorem end_combat_spec_witness :
    (end_combat arena).1 = Except.ok ⟨arenaCS.round_number, arenaCS.combatants.length,
        survivorCount arena.heap arenaCS.combatants,
        casualtyCount arena.heap arenaCS.combatants⟩ ∧
    (end_combat arena).2.combat = none ∧
    lookupA (end_combat arena).2.pcs "pc_throk" = some 0 := by
  have h := (end_combat_spec arena arena_reachable).2 arenaCS rfl
  exact ⟨h.1, h.2.2.2.1, (h.2.2.2.2.1 "pc_throk" 0 throk rfl rfl rfl).1⟩

/-- C10 (implicit): in every reachable engine state with an active
session, a roster combatant marked as a PC is registered in the
persistent PC registry under the *very same heap reference* as in the
session roster (`add_combatant` stores the identical object in both);
consequently a hit-point change made by `roll_damage` during combat is
visible through the registry immediately, before `end_combat` is ever
called: the registry still maps the id to that reference and the shared
record now carries the reduced hit points. -/
theorem pc_roster_registry_aliasing (s : EngineState) (hr : Reachable s)
    (cs : CombatState) (id : String) (r : Nat) (c : Combatant)
    (hc : s.combat = some cs) (hl : lookupA cs.combatants id = some r)
    (hg : s.heap[r]? = some c) (hpc : c.is_pc = true) :
    lookupA s.pcs id = some r ∧
    (∀ (atk : String) (dn : Option String) (m : Int) (draws : List Int)
       (res : DamageResult) (s2 : EngineState),
       roll_damage atk id dn m draws s = (Except.ok res, s2) →
       lookupA s2.pcs id = some r ∧
       s2.heap[r]? = some { c with hp := res.target_hp }) := by
  have hinv := inv_of_reachable s hr
  have hali : lookupA s.pcs id = some r := hinv.2.2.2.2 cs hc id r c hl hg hpc
  refine ⟨hali, ?_⟩
  intro atk dn m draws res s2 hrd
  unfold roll_damage at hrd
  rw [hc] at hrd
  dsimp only at hrd
  rcases ha : lookupA cs.combatants atk with _ | ra
  · rw [ha] at hrd
    simp at hrd
  · rw [ha] at hrd
    dsimp only at hrd
    rw [hl] at hrd
    dsimp only at hrd
    rcases hga : s.heap[ra]? with _ | ca
    · rw [hga, hg] at hrd
      simp at hrd
    · rw [hga, hg] at hrd
      dsimp only at hrd
      generalize hds0 : (match dn with
        | some d => d
        | none => ca.damage_dice) = ds at hrd
      split_ifs at hrd with hds
      · simp at hrd
      · rcases hp : parse_roll ds with e | parsed
        · rw [hp] at hrd
          simp at hrd
        · rw [hp] at hrd
          dsimp only at hrd
          rcases hroll2 : roll parsed.dice parsed.sides parsed.modifier draws
            with e | base
          · rw [hroll2] at hrd
            simp at hrd
          · rw [hroll2] at hrd
            dsimp only at hrd
            obtain ⟨hfst, hsnd⟩ := Prod.mk.inj hrd
            obtain rfl := Except.ok.inj hfst
            subst hsnd
            have hrlt : r < s.heap.length := getElem?_lt _ _ _ hg
            exact ⟨hali, by rw [List.getElem?_set_self hrlt]⟩

/-- C10, witnessed in the concrete `arena` encounter: Throk (a PC) is
registered under the shared reference 0, and after the goblin deals 3
points with `roll_damage` the registry still maps `pc_throk` to that
reference, whose record now shows 7 hit points. -/
theorem pc_roster_registry_aliasing_witness :
    lookupA arena.pcs "pc_throk" = some 0 ∧
    lookupA (roll_damage "goblin_01" "pc_throk" none 0 [3] arena).2.pcs
      "pc_throk" = some 0 ∧
    (roll_damage "goblin_01" "pc_throk" none 0 [3] arena).2.heap[0]? =
      some { throk with hp := 7 } := by
  have h := pc_roster_registry_aliasing arena arena_reachable arenaCS
    "pc_throk" 0 throk rfl rfl rfl rfl
  have h2 := h.2 "goblin_01" none 0 [3]
    ⟨3, 7, 10, "healthy", "A glancing blow against " ++ "Throk" ++ "!"⟩
    (roll_damage "goblin_01" "pc_throk" none 0 [3] arena).2 rfl
  exact ⟨h.1, h2.1, h2.2⟩

/-- C8 counterexample: two explicit inputs refute the claim as stated.
(1) `"2d\t6"` matches the grammar after lowercasing and stripping
whitespace (it becomes `2d6`), but the source's `replace(" ", "")` strips
only spaces, so `parse_roll` rejects it with the invalid-notation error —
the claim's "accepts exactly the grammar after ... stripping whitespace"
fails in the accepting direction.  (2) `"1d0"` is accepted by `parse_roll`
(count 1, sides 0 — `\d+` admits `0`), yet `dice.roll(1, 0, 0)` raises on
`randint`'s empty range for every possible draw list, so parse followed by
roll never yields a value at all, let alone one in `[1*1+0, 1*0+0]`.  The
final two conjuncts are the negations of the two halves of the claim at
those inputs. -/
theorem c8_counterexample :
    (GrammarShape (normalizeWS "2d\t6") ∧
      parse_roll "2d\t6" = Except.error MechError.invalidFormat) ∧
    (parse_roll "1d0" = Except.ok ⟨1, 0, 0⟩ ∧
      ∀ draws : List Int, roll (1 : Int) 0 0 draws = Except.error MechError.invalidDice) ∧
    ¬ (∀ s : String, GrammarShape (normalizeWS s) → ∃ p, parse_roll s = Except.ok p) ∧
    ¬ (∀ (s : String) (p : ParsedRoll), parse_roll s = Except.ok p →
        ∀ draws : List Int, ∃ v, roll p.dice p.sides p.modifier draws = Except.ok v ∧
          p.dice * 1 + p.modifier ≤ v ∧ v ≤ p.dice * p.sides + p.modifier) := by
  have htab : GrammarShape (normalizeWS "2d\t6") := by
    refine ⟨['2'], ['6'], [], by decide, by decide, by decide, by decide, Or.inl rfl⟩
  have htabrej : parse_roll "2d\t6" = Except.error MechError.invalidFormat := by rfl
  refine ⟨⟨htab, htabrej⟩,
          ⟨by rfl, fun draws => by rw [roll, if_pos (by norm_num)]⟩, ?_, ?_⟩
  · intro h
    obtain ⟨p, hp⟩ := h "2d\t6" htab
    rw [htabrej] at hp
    cases hp
  · intro h
    obtain ⟨v, hv, _, _⟩ := h "1d0" ⟨1, 0, 0⟩ (by rfl) []
    rw [show roll (1 : Int) 0 0 [] = Except.error MechError.invalidDice from
      by rw [roll, if_pos (by norm_num)]] at hv
    cases hv

/-- C8 (amended): after lowercasing and removing space characters (the
source's `replace(" ", "")` — other whitespace is *not* stripped, as the
`"2d\t6"` counterexample forces), `parse_roll` accepts an ASCII string iff
it matches the grammar `[count]d<sides>[+|-modifier]` up to one trailing
newline (Python `$`-semantics; count defaults to 1, modifier to 0), and
fails with the invalid-notation error on every other ASCII shape.  Over
non-ASCII input the source's `\d` additionally admits Unicode decimal
digits (a set depending on the interpreter's Unicode tables), which this
ASCII embedding deliberately leaves out of scope.  For every accepted
notation *except* those with count >= 1 and sides = 0 (where `roll`
raises on the empty `randint` range, as the `"1d0"` counterexample
forces), `parse_roll` followed by `roll` yields a value in
`[count*1 + modifier, count*sides + modifier]`. -/
theorem c8_amended :
    (∀ s : String, AsciiStr s →
      ((∃ p, parse_roll s = Except.ok p) ↔ GrammarShape (chompNewline (normalize s)))) ∧
    (∀ s : String, AsciiStr s → ¬ GrammarShape (chompNewline (normalize s)) →
      parse_roll s = Except.error MechError.invalidFormat) ∧
    (∀ (s : String) (p : ParsedRoll) (draws : List Int),
      parse_roll s = Except.ok p → (1 ≤ p.sides ∨ p.dice = 0) →
      draws.length = p.dice.toNat → (∀ d ∈ draws, 1 ≤ d ∧ d ≤ p.sides) →
      roll p.dice p.sides p.modifier draws = Except.ok (draws.sum + p.modifier) ∧
      p.dice * 1 + p.modifier ≤ draws.sum + p.modifier ∧
      draws.sum + p.modifier ≤ p.dice * p.sides + p.modifier) := by
  refine ⟨fun s _ => parseRollCs_ok_iff (chompNewline (normalize s)),
          fun s _ h => parseRollCs_not_ok (chompNewline (normalize s)) h, ?_⟩
  intro s p draws hp hval hlen hrange
  obtain ⟨hd0, _⟩ := parseRollCs_nonneg (chompNewline (normalize s)) p hp
  have hdlen : (draws.length : Int) = p.dice := by
    rw [hlen]; exact Int.toNat_of_nonneg hd0
  have hok : roll p.dice p.sides p.modifier draws = Except.ok (draws.sum + p.modifier) := by
    rw [roll, if_neg]
    rintro ⟨h1, h2⟩
    rcases hval with h3 | h3
    · omega
    · omega
  refine ⟨hok, ?_, ?_⟩
  · have := length_mul_le_sum draws 1 (fun d hd => (hrange d hd).1)
    rw [hdlen] at this
    linarith
  · have := sum_le_length_mul draws p.sides (fun d hd => (hrange d hd).2)
    rw [hdlen] at this
    linarith

/-- C8 amended, witnessed at the concrete ASCII notation `"2d6"`: the
acceptance direction holds there, and with draws 2 and 5 the value `7`
lies in `[2, 12]`. -/
theorem c8_amended_witness :
    (∃ p, parse_roll "2d6" = Except.ok p) ∧
    (roll (ParsedRoll.mk 2 6 0).dice (ParsedRoll.mk 2 6 0).sides
        (ParsedRoll.mk 2 6 0).modifier [2, 5] =
      Except.ok (([2, 5] : List Int).sum + (ParsedRoll.mk 2 6 0).modifier) ∧
    (ParsedRoll.mk 2 6 0).dice * 1 + (ParsedRoll.mk 2 6 0).modifier ≤
      ([2, 5] : List Int).sum + (ParsedRoll.mk 2 6 0).modifier ∧
    ([2, 5] : List Int).sum + (ParsedRoll.mk 2 6 0).modifier ≤
      (ParsedRoll.mk 2 6 0).dice * (ParsedRoll.mk 2 6 0).sides +
        (ParsedRoll.mk 2 6 0).modifier) := by
  constructor
  · exact (c8_amended.1 "2d6" (by unfold AsciiStr; decide)).mpr
      ⟨['2'], ['6'], [], by decide, by decide, by decide, by decide, Or.inl rfl⟩
  · exact c8_amended.2.2 "2d6" ⟨2, 6, 0⟩ [2, 5] (by rfl) (Or.inl (by norm_num))
      (by rfl) (by norm_num)

/-- C9: the code contradicts the claim (and the repository's own
`test_dice.py`, which demands `ValueError("Invalid dice parameters: ...")`
for `roll(0, 6)` and `roll(-1, 6)`):  with `count = 0` the source `roll`
performs zero draws and silently returns the modifier instead of failing;
only `count >= 1` with `sides < 1` raises (from `randint`'s empty range).
This theorem evaluates the embedded code at the failing inputs. -/
theorem c9_failing_eval :
    roll (0 : Int) 6 0 [] = Except.ok 0 ∧
    roll (-1 : Int) 6 5 [] = Except.ok 5 ∧
    roll (2 : Int) 0 0 [] = Except.error MechError.invalidDice := by
  refine ⟨?_, ?_, ?_⟩ <;> rw [roll]
  · rw [if_neg (by norm_num)]; rfl
  · rw [if_neg (by norm_num)]; rfl
  · rw [if_pos (by norm_num)]

end DndBots
